import Mathlib

/-!
Verification development for the cudf ORC GPU stripe decoder
(cpp/src/io/orc/stripe_data.cu).

The CUDA kernels are shallowly embedded as sequential Lean functions:
the circular byte-stream buffer becomes a function from positions to
bytes, machine integers become natural numbers with explicit reduction
modulo a power of two wherever C unsigned arithmetic wraps, signed
machine values are interpreted through explicit two's-complement
conversions, and warp-parallel loops whose writes are pairwise disjoint
become functional updates over the written index range.
-/

namespace OrcGpu

/-! ## Constants from stripe_data.cu -/

/-- BYTESTREAM_BFRSZ = 1 << LOG2_BYTESTREAM_BFRSZ with LOG2_BYTESTREAM_BFRSZ = 13. -/
def BYTESTREAM_BFRSZ : Nat := 8192

/-- NWARPS = 1 << LOG2_NWARPS with LOG2_NWARPS = 5. -/
def NWARPS : Nat := 32

/-- NTHREADS = 1 << (LOG2_NWARPS + 5). -/
def NTHREADS : Nat := 1024

/-! ## Two's-complement helpers -/

/-- Reinterpret a 32-bit pattern as a signed `int32_t` value. -/
def toInt32 (p : Nat) : Int :=
  if p < 2 ^ 31 then (p : Int) else (p : Int) - 2 ^ 32

/-- The 32-bit pattern of an integer value (reduction modulo 2^32). -/
def toUInt32pat (x : Int) : Nat :=
  (x % 2 ^ 32).toNat

/-- Bitwise complement of a 32-bit unsigned value (the C `~` operator on `uint32_t`). -/
def compl32 (x : Nat) : Nat :=
  0xffffffff ^^^ x

/-- Arithmetic right shift of a 32-bit pattern by `k` (C `>>` on a negative-capable
`int32_t`, which the device implements as an arithmetic shift, i.e. floor division
of the signed value by 2^k). -/
def sar32 (p : Nat) (k : Nat) : Int :=
  Int.fdiv (toInt32 p) (2 ^ k)

/-- Unsigned 32-bit subtraction `a - b` with wraparound. -/
def usub32 (a b : Nat) : Nat :=
  (a % 2 ^ 32 + (2 ^ 32 - b % 2 ^ 32)) % 2 ^ 32

/-- Unsigned 32-bit addition with wraparound. -/
def uadd32 (a b : Nat) : Nat :=
  (a + b) % 2 ^ 32

/-! ## Byte stream primitives

The circular buffer `bs->buf` is modelled as a function `buf : Nat → Nat`
giving the byte stored at each of the 8192 buffer slots (the function is
queried only through the capacity mask, exactly as in the source). -/

/-- bytestream_readbyte: `bs->buf.u8[pos & (BYTESTREAM_BFRSZ - 1)]`.  The result
is a `uint8_t`, hence the reduction modulo 256. -/
def bytestream_readbyte (buf : Nat → Nat) (pos : Nat) : Nat :=
  buf (pos &&& (BYTESTREAM_BFRSZ - 1)) % 256

/-- Little-endian `uint32_t` view of four consecutive buffer bytes
(the `buf.u32[i]` union member on a little-endian device). -/
def buf_word32 (buf : Nat → Nat) (i : Nat) : Nat :=
  bytestream_readbyte buf (4 * i) + 2 ^ 8 * bytestream_readbyte buf (4 * i + 1) +
    2 ^ 16 * bytestream_readbyte buf (4 * i + 2) + 2 ^ 24 * bytestream_readbyte buf (4 * i + 3)

/-- CUDA `__funnelshift_r(lo, hi, shift)`: the low 32 bits of
`(hi:lo) >> (shift & 31)`. -/
def funnelshift_r (lo hi s : Nat) : Nat :=
  ((hi * 2 ^ 32 + lo) >>> (s &&& 31)) % 2 ^ 32

/-- CUDA `__funnelshift_l(lo, hi, shift)`: the high 32 bits of
`(hi:lo) << (shift & 31)`. -/
def funnelshift_l (lo hi s : Nat) : Nat :=
  (((hi * 2 ^ 32 + lo) <<< (s &&& 31)) >>> 32) % 2 ^ 32

/-- CUDA `__byte_perm(x, 0, 0x0123)`: reverse the four bytes of a 32-bit value. -/
def bswap32 (x : Nat) : Nat :=
  ((x >>> 24) &&& 0xff) ||| ((((x >>> 16) &&& 0xff) <<< 8) |||
    ((((x >>> 8) &&& 0xff) <<< 16) ||| ((x &&& 0xff) <<< 24)))

/-- bytestream_readu32: unaligned little-endian 32-bit read assembled from two
buffered words with `__funnelshift_r`. -/
def bytestream_readu32 (buf : Nat → Nat) (pos : Nat) : Nat :=
  let a := buf_word32 buf ((pos &&& (BYTESTREAM_BFRSZ - 1)) >>> 2)
  let b := buf_word32 buf (((pos + 4) &&& (BYTESTREAM_BFRSZ - 1)) >>> 2)
  funnelshift_r a b ((pos &&& 3) * 8)

/-- bytestream_readbits: big-endian bit-field extraction of `numbits ≤ 32` bits
starting at bit position `bitpos`, via two byte-swapped words and
`__funnelshift_l`, then a right shift by `32 - numbits`. -/
def bytestream_readbits (buf : Nat → Nat) (bitpos numbits : Nat) : Nat :=
  let a := bswap32 (buf_word32 buf ((bitpos &&& ((BYTESTREAM_BFRSZ - 1) * 8)) >>> 5))
  let b := bswap32 (buf_word32 buf (((bitpos + 32) &&& ((BYTESTREAM_BFRSZ - 1) * 8)) >>> 5))
  funnelshift_l b a (bitpos &&& 31) >>> (32 - numbits)

/-- CUDA `__ffs`: position of the least significant set bit of a 32-bit value,
counting from 1, or 0 when no bit is set. -/
def ffs32 (x : Nat) : Nat :=
  match (List.range 32).findIdx? (fun k => x.testBit k) with
  | some k => k + 1
  | none => 0

/-! ## Varint length and decode -/

/-- varint_length for a 32-bit template parameter: the `sizeof(T) > 4` branch is
dead, so the function is `1` for a terminal first byte and otherwise
`1 + (__ffs((~next32) & 0x80808080) >> 3)` where `next32` is read at `pos`. -/
def varint_length32 (buf : Nat → Nat) (pos : Nat) : Nat :=
  if bytestream_readbyte buf pos > 0x7f then
    let next32 := bytestream_readu32 buf pos
    1 + (ffs32 (compl32 next32 &&& 0x80808080) >>> 3)
  else
    1

/-- varint_length for a 64-bit template parameter: as `varint_length32`, plus the
second probe word at `pos + 4` when the first probe yields length 5. -/
def varint_length64 (buf : Nat → Nat) (pos : Nat) : Nat :=
  if bytestream_readbyte buf pos > 0x7f then
    let next32 := bytestream_readu32 buf pos
    let len := 1 + (ffs32 (compl32 next32 &&& 0x80808080) >>> 3)
    if len = 5 then
      let next32b := bytestream_readu32 buf (pos + 4)
      len + (ffs32 (compl32 next32b &&& 0x80808080) >>> 3)
    else
      len
  else
    1

/-- decode_varint instantiated at `T = uint32_t` (also the instantiation used for
`int32_t`, whose explicit template argument selects this unsigned template and
merely reinterprets the accumulated pattern).  Returns the new position and the
decoded 32-bit value. -/
def decode_varint_u32 (buf : Nat → Nat) (pos0 : Nat) : Nat × Nat :=
  let v := bytestream_readbyte buf pos0
  if v > 0x7f then
    let b := bytestream_readbyte buf (pos0 + 1)
    let v := (v &&& 0x7f) ||| (b <<< 7)
    if b > 0x7f then
      let b := bytestream_readbyte buf (pos0 + 2)
      let v := (v &&& 0x3fff) ||| (b <<< 14)
      if b > 0x7f then
        let b := bytestream_readbyte buf (pos0 + 3)
        let v := (v &&& 0x1fffff) ||| (b <<< 21)
        if b > 0x7f then
          let b := bytestream_readbyte buf (pos0 + 4)
          let v := (v &&& 0x0fffffff) ||| ((b <<< 28) % 2 ^ 32)
          (pos0 + 5, v)
        else
          (pos0 + 4, v)
      else
        (pos0 + 3, v)
    else
      (pos0 + 2, v)
  else
    (pos0 + 1, v)

/-- decode_varint instantiated at a 64-bit `T`.  The first five bytes accumulate
exactly as in the 32-bit path; when the fifth byte continues, the low word is
latched and the accumulator restarts on the high word, whose bit 31 (value
bit 63) is supplied by the continuation bit of the ninth byte. -/
def decode_varint_u64 (buf : Nat → Nat) (pos0 : Nat) : Nat × Nat :=
  let v := bytestream_readbyte buf pos0
  if v > 0x7f then
    let b := bytestream_readbyte buf (pos0 + 1)
    let v := (v &&& 0x7f) ||| (b <<< 7)
    if b > 0x7f then
      let b := bytestream_readbyte buf (pos0 + 2)
      let v := (v &&& 0x3fff) ||| (b <<< 14)
      if b > 0x7f then
        let b := bytestream_readbyte buf (pos0 + 3)
        let v := (v &&& 0x1fffff) ||| (b <<< 21)
        if b > 0x7f then
          let b := bytestream_readbyte buf (pos0 + 4)
          let v := (v &&& 0x0fffffff) ||| ((b <<< 28) % 2 ^ 32)
          if b > 0x7f then
            let lo := v
            let v := (b >>> 4) &&& 7
            let b := bytestream_readbyte buf (pos0 + 5)
            let v := v ||| (b <<< 3)
            if b > 0x7f then
              let b := bytestream_readbyte buf (pos0 + 6)
              let v := (v &&& 0x3ff) ||| (b <<< 10)
              if b > 0x7f then
                let b := bytestream_readbyte buf (pos0 + 7)
                let v := (v &&& 0x1ffff) ||| (b <<< 17)
                if b > 0x7f then
                  let b := bytestream_readbyte buf (pos0 + 8)
                  let v := (v &&& 0xffffff) ||| (b <<< 24)
                  if b > 0x7f then
                    (pos0 + 10, v * 2 ^ 32 + lo)
                  else
                    (pos0 + 9, v * 2 ^ 32 + lo)
                else
                  (pos0 + 8, v * 2 ^ 32 + lo)
              else
                (pos0 + 7, v * 2 ^ 32 + lo)
            else
              (pos0 + 6, v * 2 ^ 32 + lo)
          else
            (pos0 + 5, v)
        else
          (pos0 + 4, v)
      else
        (pos0 + 3, v)
    else
      (pos0 + 2, v)
  else
    (pos0 + 1, v)

/-- Zig-zag decoding applied by the signed varint overloads:
`(int32_t)((u >> 1u) ^ -(int32_t)(u & 1))`, with the negation expressed as the
32-bit wraparound pattern. -/
def zigzag_decode32 (u : Nat) : Int :=
  toInt32 ((u >>> 1) ^^^ ((2 ^ 32 - (u &&& 1)) % 2 ^ 32))

/-- Zig-zag decoding for the 64-bit signed overload. -/
def toInt64 (p : Nat) : Int :=
  if p < 2 ^ 63 then (p : Int) else (p : Int) - 2 ^ 64

/-- Zig-zag decoding applied by the 64-bit signed varint overload. -/
def zigzag_decode64 (u : Nat) : Int :=
  toInt64 ((u >>> 1) ^^^ ((2 ^ 64 - (u &&& 1)) % 2 ^ 64))

/-- Signed 32-bit decode_varint overload: unsigned decode followed by zig-zag. -/
def decode_varint_i32 (buf : Nat → Nat) (pos : Nat) : Nat × Int :=
  let r := decode_varint_u32 buf pos
  (r.1, zigzag_decode32 r.2)

/-- Signed 64-bit decode_varint overload: unsigned decode followed by zig-zag. -/
def decode_varint_i64 (buf : Nat → Nat) (pos : Nat) : Nat × Int :=
  let r := decode_varint_u64 buf pos
  (r.1, zigzag_decode64 r.2)

/-! ## Spec-side canonical encoders (for the round-trip property) -/

/-- Modelled from the spec: the canonical base-128 little-endian varint encoding
(continuation bit = high bit of each byte), emitting base-128 digits while the
remaining value is nonzero.  The structural bound of 10 bytes covers every value
below 2^70, in particular all 32-bit and 64-bit inputs of the round-trip claim.
The encoder itself is not part of the decode kernels; it is the reference
encoding named by the specification. -/
def encode_varint_go (fuel v : Nat) : List Nat :=
  match fuel with
  | 0 => []
  | fuel + 1 => if v < 0x80 then [v] else (v % 0x80 + 0x80) :: encode_varint_go fuel (v / 0x80)

/-- Modelled from the spec: canonical varint encoding (see `encode_varint_go`). -/
def encode_varint (v : Nat) : List Nat :=
  encode_varint_go 10 v

/-- Modelled from the spec: zig-zag encoding of a signed value,
`(n << 1) ^ (n >> (w-1))`, i.e. `2n` for `n ≥ 0` and `-2n - 1` for `n < 0`. -/
def zigzag_encode (n : Int) : Nat :=
  if n < 0 then (-(2 * n) - 1).toNat else (2 * n).toNat

/-- View a byte list as a stream buffer (bytes beyond the list read as zero). -/
def bufOfList (l : List Nat) : Nat → Nat :=
  fun i => l.getD i 0

/-! ## lengths_to_positions (the doubling inclusive scan) -/

/-- One round of the `lengths_to_positions` doubling scan with step `n`:
`if ((t & n) && (t < numvals)) vals[t] += vals[(t & ~n) | (n - 1)]`.
All updated slots have the bit of `n` set while all read partners have it
clear, so the simultaneous warp update is the pointwise functional update.
Additions wrap at the value type's modulus `m`; the thread index `t` and the
step `n` are 32-bit unsigned, hence the 32-bit complement in the partner
index. -/
def l2p_round (m numvals n : Nat) (v : Nat → Nat) : Nat → Nat :=
  fun t =>
    if t &&& n ≠ 0 ∧ t < numvals then (v t + v ((t &&& compl32 n) ||| (n - 1))) % m else v t

/-- lengths_to_positions: convert lengths into inclusive prefix positions by
the doubling loop `for (n = 1; n < numvals; n <<= 1)`; the set of executed
steps `n` is exactly the powers `2^j` with `j < clog2 numvals`.  `m` is the
modulus of the value type: 2^32 for the `uint32_t` instantiation and 2^16 for
`uint16_t`. -/
def lengths_to_positions (m numvals : Nat) (v : Nat → Nat) : Nat → Nat :=
  (List.range (Nat.clog 2 numvals)).foldl (fun w j => l2p_round m numvals (2 ^ j) w) v

/-! ## Integer RLEv1 decoder -/

/-- Functional update of one array slot. -/
def upd (f : Nat → Nat) (i v : Nat) : Nat → Nat :=
  fun k => if k = i then v else f k

/-- Functional update of consecutive array slots starting at `i`. -/
def updList (f : Nat → Nat) (i : Nat) : List Nat → (Nat → Nat)
  | [] => f
  | p :: ps => updList (upd f i p) (i + 1) ps

/-- The packed run descriptor `(delta << 24) | (n << 16) | numvals` stored into
`rle->run_data` (a 32-bit pattern; `delta` is the raw delta byte, so the
shifted field is the two's-complement image of the signed delta). -/
def packRunData (delta n numvals : Nat) : Nat :=
  ((delta <<< 24) ||| (n <<< 16)) ||| numvals

/-- Run expansion field extraction `int n = (run_data >> 16) & 0xff` (the low
eight bits of the shift are unaffected by the arithmetic/logical distinction,
so the pattern form is used). -/
def run_data_count (rd : Nat) : Nat :=
  (rd >>> 16) &&& 0xff

/-- Run expansion field extraction `int delta = run_data >> 24` (arithmetic
shift of the signed 32-bit pattern). -/
def run_data_delta (rd : Nat) : Int :=
  sar32 rd 24

/-- Run expansion field extraction `uint32_t base = run_data & 0x3ff`. -/
def run_data_base (rd : Nat) : Nat :=
  rd &&& 0x3ff

/-- State of the single-lane RLEv1 scan loop. -/
structure Rlev1Scan where
  lastpos : Nat
  numvals : Nat
  numruns : Nat
  vals : Nat → Nat
  runs : List Nat

/-- Literal-block inner loop of the RLEv1 scan: records each literal's stream
offset (`pos & 0xffff`) and advances by `varint_length`, returning the recorded
offsets and the final position. -/
def rlev1_lit_scan (buf : Nat → Nat) : Nat → Nat → List Nat × Nat
  | _pos, 0 => ([], _pos)
  | pos, Nat.succ k =>
    let p := pos &&& 0xffff
    let pos2 := pos + varint_length32 buf pos
    let r := rlev1_lit_scan buf pos2 k
    (p :: r.1, r.2)

/-- The RLEv1 scan loop (thread 0 of Integer_RLEv1): classifies each control
byte as a run (`n <= 0x7f`, length `n + 3`, one delta byte, one base varint)
or a literal block (`0x100 - n` varints), recording packed run descriptors and
literal stream offsets, stopping when the next group would exceed `maxvals`,
the run table (NWARPS*12), or the safely bufferable window `maxpos`.  The loop
is driven by structural fuel; every committed iteration consumes at least one
output slot, so `maxvals + 1` fuel is never exhausted. -/
def rlev1_scan_go (buf : Nat → Nat) (maxpos maxvals : Nat) :
    Nat → Rlev1Scan → Rlev1Scan
  | 0, st => st
  | Nat.succ fuel, st =>
    if st.numvals < maxvals ∧ st.numruns < NWARPS * 12 then
      let pos := st.lastpos
      let n := bytestream_readbyte buf pos
      if n ≤ 0x7f then
        let n := n + 3
        if maxvals < st.numvals + n then st
        else
          let delta := bytestream_readbyte buf (pos + 1)
          let vals2 := upd st.vals st.numvals ((pos + 2) &&& 0xffff)
          let pos2 := pos + 2 + varint_length32 buf (pos + 2)
          if maxpos < pos2 then { st with vals := vals2 }
          else
            rlev1_scan_go buf maxpos maxvals fuel
              { lastpos := pos2, numvals := st.numvals + n, numruns := st.numruns + 1,
                vals := vals2, runs := st.runs ++ [packRunData delta n st.numvals] }
      else
        let n := 0x100 - n
        if maxvals < st.numvals + n then st
        else
          let r := rlev1_lit_scan buf (pos + 1) n
          let vals2 := updList st.vals st.numvals r.1
          if maxpos < r.2 then { st with vals := vals2 }
          else
            rlev1_scan_go buf maxpos maxvals fuel
              { lastpos := r.2, numvals := st.numvals + n, numruns := st.numruns,
                vals := vals2, runs := st.runs }
    else st

/-- The RLEv1 scan, started from the stream position with empty state, with
`maxpos = min(len, pos + BYTESTREAM_BFRSZ - 8)`. -/
def rlev1_scan (buf : Nat → Nat) (startpos len maxvals : Nat) : Rlev1Scan :=
  rlev1_scan_go buf (min len (startpos + (BYTESTREAM_BFRSZ - 8))) maxvals (maxvals + 1)
    { lastpos := startpos, numvals := 0, numruns := 0, vals := fun _ => 0, runs := [] }

/-- Expansion of one recorded run: lanes `i = 1 .. n-1` store
`((delta * i) << 16) | pos` into `vals[base + i]`, where `pos` is the recorded
base-varint offset `vals[base] & 0xffff`. -/
def rlev1_expand_run (vals : Nat → Nat) (rd : Nat) : Nat → Nat :=
  let n := run_data_count rd
  let delta := run_data_delta rd
  let base := run_data_base rd
  let pos := vals base &&& 0xffff
  fun k =>
    if base + 1 ≤ k ∧ k < base + n then
      ((toUInt32pat (delta * (k - base)) <<< 16) % 2 ^ 32) ||| pos
    else vals k

/-- Expansion of all recorded runs (runs write pairwise disjoint slot ranges
and read only the run's own recorded base slot, so the warp-parallel expansion
is the left fold over the run table). -/
def rlev1_expand (vals : Nat → Nat) (runs : List Nat) : Nat → Nat :=
  runs.foldl rlev1_expand_run vals

/-- Per-slot varint decode of Integer_RLEv1 (uint32 instantiation): lane
`t < numvals` reads its slot, splits off the packed delta (`pos >> 16`,
arithmetic), decodes the varint at the slot's offset (the byte reads mask the
position by the buffer capacity, so only the pattern's residue matters), and
stores `v + delta`. -/
def rlev1_decode_vals (buf : Nat → Nat) (numvals : Nat) (vals : Nat → Nat) : Nat → Nat :=
  fun t =>
    if t < numvals then
      let posPat := vals t
      let delta := sar32 posPat 16
      let v := (decode_varint_u32 buf posPat).2
      toUInt32pat ((v : Int) + delta)
    else vals t

/-- Integer_RLEv1 (uint32 instantiation), sequentialised: scan, run expansion,
per-slot varint decode.  Returns the produced count, the output values, and
the new stream position `min(lastpos, len)` (the effect of
`bytestream_flush_bytes` on `bs->pos`). -/
def Integer_RLEv1 (buf : Nat → Nat) (startpos len maxvals : Nat) :
    Nat × (Nat → Nat) × Nat :=
  let st := rlev1_scan buf startpos len maxvals
  let vals2 := rlev1_expand st.vals st.runs
  let vals3 := rlev1_decode_vals buf st.numvals vals2
  (st.numvals, vals3, min st.lastpos len)

/-- The length padding performed by `bytestream_init` for an 8-byte aligned
base pointer: `len = (len + pos + 7) & ~7` with `pos = 0`. -/
def bytestream_aligned_len (len : Nat) : Nat :=
  (len + 7) &&& 0xfffffff8

/-! ## String-dictionary batch (gpuDecodeNullsAndStringDictionaries, dictionary path) -/

/-- One batch of the dictionary materialisation loop: `len` is captured before
the in-place scan (`len = (t < numvals) ? vals[t] : 0`), the decoded lengths
are converted to inclusive positions by `lengths_to_positions` (uint32
instantiation), and lane `t < numvals` writes the local dictionary entry
`(dict_pos + vals[t] - len, len)` in 32-bit unsigned arithmetic.  The result is
the entry written at local slot `t` (slots at or above `numvals` are not
written by this batch). -/
def dict_batch (dict_pos numvals : Nat) (vals : Nat → Nat) : Nat → Nat × Nat :=
  fun t =>
    let len := if t < numvals then vals t else 0
    let pv := lengths_to_positions (2 ^ 32) numvals vals t
    (usub32 (uadd32 dict_pos pv) len, len)

/-! ## Row-offset computation (gpuDecodeOrcColumnData, PRESENT-stream path) -/

/-- The per-lane validity indicator stored into `row_ofs_plus1[t]` before the
scan: the lane's validity-bitmap bit for lanes below `nrows`, zero otherwise
(`valid` is forced to 0 for `t ≥ nrows`, and slots at or above `nrows` are
never read afterwards). -/
def row_ofs_init (validBit : Nat → Bool) (nrows : Nat) : Nat → Nat :=
  fun t => if t < nrows ∧ validBit t then 1 else 0

/-- The per-row offset value `nz_pos = (valid) ? row_ofs_plus1[t] : 0` computed
from the inclusive parallel prefix sum over the validity bits
(`lengths_to_positions<uint16_t>`): 0 for a null or out-of-window row, the
1-based rank among the valid rows otherwise. -/
def row_ofs_nzpos (validBit : Nat → Bool) (nrows : Nat) : Nat → Nat :=
  fun t =>
    if t < nrows ∧ validBit t then
      lengths_to_positions (2 ^ 16) nrows (row_ofs_init validBit nrows) t
    else 0

/-! ## Integer RLEv2, delta-mode (mode 3) runs -/

/-- The constant table `kRLEv2_W` mapping the 5-bit width code to a bit width. -/
def kRLEv2_W (i : Nat) : Nat :=
  [1, 2, 3, 4, 5, 6, 7, 8, 9, 10, 11, 12, 13, 14, 15, 16,
   17, 18, 19, 20, 21, 22, 23, 24, 26, 28, 30, 32, 40, 48, 56, 64].getD i 0

/-- The quantities the coordinating lane of a warp extracts from a delta-mode
run header before broadcasting them: the bit width `w`, the value count `n`,
the raw base varint `baseval` (the explicit template argument of
`decode_varint<T>` selects the unsigned template, so no zig-zag is applied to
the base), the zig-zag-decoded signed delta varint, and the position `pos` of
the bit-packed tail (just past the two varints). -/
structure Rlev2Delta where
  w : Nat
  n : Nat
  baseval : Nat
  delta : Int
  pos : Nat

/-- Parse a delta-mode run header at `runpos`: `byte0` at `runpos`,
`w = kRLEv2_W[(byte0 >> 1) & 0x1f]`, `n = 1 + ((byte0 & 1) << 8) + byte1`,
then the raw base varint and the signed delta varint. -/
def rlev2_delta_parse (buf : Nat → Nat) (runpos : Nat) : Rlev2Delta :=
  let byte0 := bytestream_readbyte buf runpos
  let w := kRLEv2_W ((byte0 >>> 1) &&& 0x1f)
  let n := 1 + ((byte0 &&& 1) <<< 8) + bytestream_readbyte buf (runpos + 1)
  let rb := decode_varint_u32 buf (runpos + 2)
  let rd := decode_varint_i32 buf rb.1
  { w := w, n := n, baseval := rb.2, delta := rd.2, pos := rd.1 }

/-- The per-slot magnitude
`ofs = (i >= 2) ? ((w > 1) ? bytestream_readbits(bs, pos*8 + (i-2)*w, w) : 0)
: (i == 1) ? abs(delta) : 0` of the 32-bit delta path (`ofs` is a `uint32_t`,
hence the reduction of the absolute value modulo 2^32). -/
def rlev2_ofs (buf : Nat → Nat) (p : Rlev2Delta) (i : Nat) : Nat :=
  if 2 ≤ i then
    if 1 < p.w then bytestream_readbits buf (p.pos * 8 + (i - 2) * p.w) p.w else 0
  else if i = 1 then p.delta.natAbs % 2 ^ 32
  else 0

/-- The pattern stored into slot `i` before the prefix scan:
`vals[base + i] = (delta < 0) ? -ofs : ofs` in 32-bit wraparound arithmetic. -/
def rlev2_delta_slot (buf : Nat → Nat) (p : Rlev2Delta) (i : Nat) : Nat :=
  if p.delta < 0 then (2 ^ 32 - rlev2_ofs buf p i) % 2 ^ 32 else rlev2_ofs buf p i

/-- The signed value represented by slot `i`: the magnitude `ofs`, negated when
the run's delta is negative.  This is the signed reading of
`rlev2_delta_slot`, used to state the decoded values exactly. -/
def rlev2_slot_int (buf : Nat → Nat) (p : Rlev2Delta) (i : Nat) : Int :=
  if p.delta < 0 then -(rlev2_ofs buf p i : Int) else (rlev2_ofs buf p i : Int)

/-- Decode a delta-mode run: fill the slots, run the warp doubling inclusive
prefix scan (`for (i = 1; i < n; i <<= 1) ... vals[base+j] += vals[(j & ~i) |
(i-1)]`, the same scan as `lengths_to_positions`), then add the broadcast
`baseval` into every slot, all in 32-bit wraparound arithmetic.  Returns the
value count and the decoded slots. -/
def rlev2_delta_decode (buf : Nat → Nat) (runpos : Nat) : Nat × (Nat → Nat) :=
  let p := rlev2_delta_parse buf runpos
  (p.n, fun j =>
    (lengths_to_positions (2 ^ 32) p.n (rlev2_delta_slot buf p) j + p.baseval) % 2 ^ 32)

/-! ## Null-decode skip counting and chunk-descriptor writeback -/

/-- CUDA `__popc`: the number of set bits of a 32-bit value. -/
def popc32 (x : Nat) : Nat :=
  ((List.range 32).filter (fun k => x.testBit k)).length

/-- One butterfly round `v += SHFL_XOR(v, k)` across a warp: every lane adds
the pre-round value held by its partner lane (32-bit wraparound). -/
def shfl_xor_acc (v : Nat → Nat) (k : Nat) : Nat → Nat :=
  fun t => (v t + v (t ^^^ k)) % 2 ^ 32

/-- The five-round butterfly reduction with masks 1, 2, 4, 8, 16 used for both
the skip counts and the null counts. -/
def warp_butterfly_sum (v : Nat → Nat) : Nat → Nat :=
  shfl_xor_acc (shfl_xor_acc (shfl_xor_acc (shfl_xor_acc (shfl_xor_acc v 1) 2) 4) 8) 16

/-- The per-lane skip tally of lines 957-967: iterate `i = 0, 32, ...` below
`skippedrows` over the decoded validity words, masking the last partial word to
`skippedrows - i` bits.  The loop index does not depend on the lane, so every
lane of the warp computes this same full value. -/
def nulls_skip_lane_sum (valbits : Nat → Nat) (skippedrows : Nat) : Nat :=
  ((List.range ((skippedrows + 31) / 32)).map (fun j =>
    let bits := valbits j
    let bits := if skippedrows < 32 * j + 32 then
      bits &&& ((1 <<< (skippedrows - 32 * j)) - 1) else bits
    popc32 bits)).sum

/-- The value line 975 adds to the shared chunk copy's skip_count: the lane-0
result of the butterfly reduction over the (lane-independent) per-lane
tallies. -/
def nulls_skip_increment (valbits : Nat → Nat) (skippedrows : Nat) : Nat :=
  warp_butterfly_sum (fun _ => nulls_skip_lane_sum valbits skippedrows) 0

/-- The two ColumnDesc fields the null-decode kernel updates: every other field
of the descriptor is read-only in both kernels, so the global descriptor is
modelled by this pair. -/
structure ColumnDescC4 where
  skip_count : Nat
  null_count : Nat

/-- Line 975, `s->chunk.skip_count += skip_count`: the increment lands in the
block's shared copy of the descriptor (32-bit wraparound). -/
def nulls_shared_addskip (chunk : ColumnDescC4) (inc : Nat) : ColumnDescC4 :=
  { chunk with skip_count := (chunk.skip_count + inc) % 2 ^ 32 }

/-- Lines 1005-1008, the only store the null-decode branch makes to the global
descriptor `chunks[chunk_id]`: `chunks[chunk_id].null_count = null_count`. -/
def nulls_writeback (chunk : ColumnDescC4) (null_count : Nat) : ColumnDescC4 :=
  { chunk with null_count := null_count }

/-- Line 1138: the column-data decode kernel (which re-loads the descriptor
from global memory at line 1103) initializes each batch's value budget as
`min(s->chunk.skip_count, NTHREADS)`. -/
def datadec_skip_read (chunk : ColumnDescC4) : Nat :=
  min chunk.skip_count NTHREADS

/-! ## String scatter (STRING/BINARY/VARCHAR/CHAR output rows) -/

/-- The pointer written into an output string descriptor: an offset into the
DICTIONARY stream, an offset into the DATA stream, or the `0xdeadbeef`
sentinel. -/
inductive StrPtr where
  | dict (ofs : Nat)
  | data (ofs : Nat)
  | sentinel
deriving DecidableEq

/-- Lines 1399-1413 (dictionary encoding): look the decoded index up in the
global dictionary slice `[dictionary_start, dictionary_start + dict_len)`
(`gdict i` is the `(pos, len)` pair of `global_dictionary[i]`), or produce the
zero-length sentinel descriptor when the index is at or beyond `dict_len`. -/
def scatter_string_dict (dict_len dictionary_start : Nat) (gdict : Nat → Nat × Nat)
    (dict_idx : Nat) : StrPtr × Nat :=
  if dict_idx < dict_len then
    (StrPtr.dict (gdict (dictionary_start + dict_idx)).1,
      (gdict (dictionary_start + dict_idx)).2)
  else
    (StrPtr.sentinel, 0)

/-- Lines 1414-1424 (direct encoding): the data offset
`dict_idx = dictionary_start + vals[NTHREADS + t] - count` is computed before
`count` is assigned on the next line, so it folds in the register's prior
content, modelled by the free parameter `count0`; then `count = vals[t]`, and
the descriptor is `(DATA + dict_idx, count)` unless the 32-bit sum
`dict_idx + count` exceeds the DATA stream length, in which case it is the
zero-length sentinel. -/
def scatter_string_direct (dictionary_start strm_len valsNT valsT count0 : Nat) :
    StrPtr × Nat :=
  let dict_idx := usub32 (uadd32 dictionary_start valsNT) count0
  let count := valsT
  if strm_len < uadd32 dict_idx count then (StrPtr.sentinel, 0)
  else (StrPtr.data dict_idx, count)

/-! ## Null bitmap store (gpuDecodeNullsAndStringDictionaries, lines 905-951) -/

/-- Bit `s` of the decoded PRESENT bit array held in the shared `vals` words
(little-endian bit order: bit `s` is bit `s % 32` of 32-bit word `s / 32`). -/
def srcbit (vals : Nat → Nat) (s : Nat) : Bool :=
  (vals (s / 32)).testBit (s % 32)

/-- `rle8_read_u32`: read 32 bits starting at bit `bitpos` of the decoded bit
array, via two words and `__funnelshift_r`. -/
def rle8_read_u32 (vals : Nat → Nat) (bitpos : Nat) : Nat :=
  funnelshift_r (vals (bitpos >>> 5)) (vals ((bitpos >>> 5) + 1)) (bitpos &&& 0x1f)

/-- The aligned-store phase for destination word `t` past the head word (lines
936-950): a full 32-bit window word is overwritten outright; a partial tail
word is merged under the mask `(1 << n) - 1`; a word past the window is left
unchanged (the corresponding lane stores nothing). -/
def nulls_store_word (vals : Nat → Nat) (g : Nat) (startbit nbits t : Nat) : Nat :=
  if 32 * t + 32 ≤ nbits then rle8_read_u32 vals (startbit + 32 * t)
  else if 32 * t < nbits then
    (g &&& compl32 ((1 <<< (nbits - 32 * t)) - 1)) |||
      (rle8_read_u32 vals (startbit + 32 * t) &&& ((1 <<< (nbits - 32 * t)) - 1))
  else g

/-- The `__popc` term lane `t` adds to its running `null_count` in the aligned
phase: `__popc(~bits)` for a full word, `__popc((~bits) & mask)` for the
partial tail, nothing past the window. -/
def nulls_store_word_nc (vals : Nat → Nat) (startbit nbits t : Nat) : Nat :=
  if 32 * t + 32 ≤ nbits then popc32 (compl32 (rle8_read_u32 vals (startbit + 32 * t)))
  else if 32 * t < nbits then
    popc32 (compl32 (rle8_read_u32 vals (startbit + 32 * t) &&& ((1 <<< (nbits - 32 * t)) - 1)) &&&
      ((1 <<< (nbits - 32 * t)) - 1))
  else 0

/-- The total null count contributed by the aligned phase: the per-lane terms
summed over the `(nbits + 31) / 32` lanes that touch the window (the final
warp/block reduction at lines 987-1008 adds the per-lane counters). -/
def nulls_tail_nc (vals : Nat → Nat) (startbit nbits : Nat) : Nat :=
  ((List.range ((nbits + 31) / 32)).map (nulls_store_word_nc vals startbit nbits)).sum

/-- One window of the null-bitmap store, after the destination window
`[dst_pos, dst_pos + nbits)` and the source start bit have been computed: the
unaligned head up to the next 32-bit boundary is merged under
`((1 << n) - 1) << bitpos` by lane 0 (lines 920-934), then the aligned phase
stores the remaining words.  Returns the updated global bitmap (as a function
from word index to 32-bit word) and the null count contribution. -/
def nulls_store_in (vals gmap : Nat → Nat) (startbit dst_pos nbits : Nat) :
    (Nat → Nat) × Nat :=
  let word0 := dst_pos >>> 5
  let bitpos := dst_pos &&& 0x1f
  if bitpos ≠ 0 then
    let n := min (32 - bitpos) nbits
    let mask := ((1 <<< n) - 1) <<< bitpos
    (fun w =>
      if w < word0 then gmap w
      else if w = word0 then
        (gmap word0 &&& compl32 mask) ||| ((rle8_read_u32 vals startbit <<< bitpos) &&& mask)
      else nulls_store_word vals (gmap w) (startbit + n) (nbits - n) (w - (word0 + 1)),
      popc32 (compl32 ((rle8_read_u32 vals startbit <<< bitpos) &&& mask) &&& mask) +
        nulls_tail_nc vals (startbit + n) (nbits - n))
  else
    (fun w =>
      if w < word0 then gmap w
      else nulls_store_word vals (gmap w) startbit nbits (w - word0),
      nulls_tail_nc vals startbit nbits)

/-- `dst_pos = max(dst_row, 0)` with `dst_row = row_in - first_row` in `int64`
arithmetic (lines 909-910). -/
def nulls_dst_pos (first_row row_in : Nat) : Nat :=
  (max ((row_in : Int) - (first_row : Int)) 0).toNat

/-- `startbit = -min(dst_row, 0)` (line 911): the number of leading decoded
bits that fall below `first_row`. -/
def nulls_startbit (first_row row_in : Nat) : Nat :=
  (-(min ((row_in : Int) - (first_row : Int)) 0)).toNat

/-- `nbits = nrows - min(startbit, nrows)`, clamped at the window end
`max_num_rows` (lines 912-918). -/
def nulls_nbits (first_row max_num_rows row_in nrows : Nat) : Nat :=
  if max_num_rows <
      nulls_dst_pos first_row row_in + (nrows - min (nulls_startbit first_row row_in) nrows) then
    max_num_rows - min (nulls_dst_pos first_row row_in) max_num_rows
  else nrows - min (nulls_startbit first_row row_in) nrows

/-- The per-window null-bitmap store (lines 905-951): nothing is stored or
counted when the decoded rows `[row_in, row_in + nrows)` do not overlap the
output window `[first_row, first_row + max_num_rows)` (line 907, with a
non-null `valid_map_base`). -/
def nulls_store (vals gmap : Nat → Nat) (first_row max_num_rows row_in nrows : Nat) :
    (Nat → Nat) × Nat :=
  if first_row < row_in + nrows ∧ row_in < first_row + max_num_rows then
    nulls_store_in vals gmap (nulls_startbit first_row row_in) (nulls_dst_pos first_row row_in)
      (nulls_nbits first_row max_num_rows row_in nrows)
  else (gmap, 0)

/-! ## The per-chunk column-data decode loop (gpuDecodeOrcColumnData)

The loop is modelled for the INT / RLEv1 primary-data dispatch of lines
1132-1456, covering both row-window branches of phase 1: the PRESENT-stream
branch (lines 1149-1189, with the uint16 prefix scan, the compaction store
`row_ofs_plus1[nz_pos - 1] = nrows + t` of line 1171, and the NTHREADS
overflow clamp), and the all-valid branch (lines 1190-1204); then the primary
decode (line 1269) with the value-budget adjustment (lines 1285-1295), and the
advance step (lines 1443-1453).  The scatter phase only writes output and does
not influence the loop state.  The `row_ofs_plus1` array persists across
iterations; its contents before an iteration enter as an explicit state
component. -/

theorem encode_go_succ (fuel v : Nat) :
    encode_varint_go (fuel + 1) v =
      if v < 0x80 then [v] else (v % 0x80 + 0x80) :: encode_varint_go fuel (v / 0x80) := rfl

theorem and127 (x : Nat) : x &&& 127 = x % 128 := by
  have h := Nat.and_pow_two_sub_one_eq_mod x 7
  norm_num at h
  exact h

theorem and16383 (x : Nat) : x &&& 16383 = x % 16384 := by
  have h := Nat.and_pow_two_sub_one_eq_mod x 14
  norm_num at h
  exact h

theorem and2097151 (x : Nat) : x &&& 2097151 = x % 2097152 := by
  have h := Nat.and_pow_two_sub_one_eq_mod x 21
  norm_num at h
  exact h

theorem and268435455 (x : Nat) : x &&& 268435455 = x % 268435456 := by
  have h := Nat.and_pow_two_sub_one_eq_mod x 28
  norm_num at h
  exact h

theorem and1 (x : Nat) : x &&& 1 = x % 2 :=
  Nat.and_one_is_mod x

theorem and3 (x : Nat) : x &&& 3 = x % 4 := by
  have h := Nat.and_pow_two_sub_one_eq_mod x 2
  norm_num at h
  exact h

theorem and7 (x : Nat) : x &&& 7 = x % 8 := by
  have h := Nat.and_pow_two_sub_one_eq_mod x 3
  norm_num at h
  exact h

theorem and31 (x : Nat) : x &&& 31 = x % 32 := by
  have h := Nat.and_pow_two_sub_one_eq_mod x 5
  norm_num at h
  exact h

theorem and255 (x : Nat) : x &&& 255 = x % 256 := by
  have h := Nat.and_pow_two_sub_one_eq_mod x 8
  norm_num at h
  exact h

theorem and1023 (x : Nat) : x &&& 1023 = x % 1024 := by
  have h := Nat.and_pow_two_sub_one_eq_mod x 10
  norm_num at h
  exact h

theorem and131071 (x : Nat) : x &&& 131071 = x % 131072 := by
  have h := Nat.and_pow_two_sub_one_eq_mod x 17
  norm_num at h
  exact h

theorem and16777215 (x : Nat) : x &&& 16777215 = x % 16777216 := by
  have h := Nat.and_pow_two_sub_one_eq_mod x 24
  norm_num at h
  exact h

theorem and8191 (x : Nat) : x &&& 8191 = x % 8192 := by
  have h := Nat.and_pow_two_sub_one_eq_mod x 13
  norm_num at h
  exact h

theorem and65535 (x : Nat) : x &&& 65535 = x % 65536 := by
  have h := Nat.and_pow_two_sub_one_eq_mod x 16
  norm_num at h
  exact h

theorem and4294967295 (x : Nat) : x &&& 4294967295 = x % 4294967296 := by
  have h := Nat.and_pow_two_sub_one_eq_mod x 32
  norm_num at h
  exact h

theorem shl1 (x : Nat) : x <<< 1 = x * 2 := by rw [Nat.shiftLeft_eq]

theorem shl3 (x : Nat) : x <<< 3 = x * 8 := by rw [Nat.shiftLeft_eq]

theorem shl7 (x : Nat) : x <<< 7 = x * 128 := by rw [Nat.shiftLeft_eq]

theorem shl8 (x : Nat) : x <<< 8 = x * 256 := by rw [Nat.shiftLeft_eq]

theorem shl10 (x : Nat) : x <<< 10 = x * 1024 := by rw [Nat.shiftLeft_eq]

theorem shl14 (x : Nat) : x <<< 14 = x * 16384 := by rw [Nat.shiftLeft_eq]

theorem shl16 (x : Nat) : x <<< 16 = x * 65536 := by rw [Nat.shiftLeft_eq]

theorem shl17 (x : Nat) : x <<< 17 = x * 131072 := by rw [Nat.shiftLeft_eq]

theorem shl21 (x : Nat) : x <<< 21 = x * 2097152 := by rw [Nat.shiftLeft_eq]

theorem shl24 (x : Nat) : x <<< 24 = x * 16777216 := by rw [Nat.shiftLeft_eq]

theorem shl28 (x : Nat) : x <<< 28 = x * 268435456 := by rw [Nat.shiftLeft_eq]

theorem shr1 (x : Nat) : x >>> 1 = x / 2 := by rw [Nat.shiftRight_eq_div_pow]

theorem shr2 (x : Nat) : x >>> 2 = x / 4 := by rw [Nat.shiftRight_eq_div_pow]

theorem shr3 (x : Nat) : x >>> 3 = x / 8 := by rw [Nat.shiftRight_eq_div_pow]

theorem shr4 (x : Nat) : x >>> 4 = x / 16 := by rw [Nat.shiftRight_eq_div_pow]

theorem shr5 (x : Nat) : x >>> 5 = x / 32 := by rw [Nat.shiftRight_eq_div_pow]

theorem shr16 (x : Nat) : x >>> 16 = x / 65536 := by rw [Nat.shiftRight_eq_div_pow]

theorem shr24 (x : Nat) : x >>> 24 = x / 16777216 := by rw [Nat.shiftRight_eq_div_pow]

/-- Disjoint bitwise or is addition: low part below `2^k`, high part a multiple
of `2^k`. -/
theorem lor_lt_mul_eq_add (k a b : Nat) (ha : a < 2 ^ k) : a ||| 2 ^ k * b = 2 ^ k * b + a := by
  rw [Nat.lor_comm]
  exact (Nat.mul_add_lt_is_or ha b).symm

/-- Specialisation of `lor_lt_mul_eq_add` to a numeral modulus. -/
theorem lor_mod_mul (k m : Nat) (hm : m = 2 ^ k) (x b : Nat) :
    x % m ||| b * m = b * m + x % m := by
  subst hm
  rw [Nat.mul_comm b]
  exact lor_lt_mul_eq_add k _ b (Nat.mod_lt x (Nat.two_pow_pos k))

theorem lor8 (x b : Nat) : x % 8 ||| b * 8 = b * 8 + x % 8 :=
  lor_mod_mul 3 8 (by norm_num) x b

theorem lor128 (x b : Nat) : x % 128 ||| b * 128 = b * 128 + x % 128 :=
  lor_mod_mul 7 128 (by norm_num) x b

theorem lor1024 (x b : Nat) : x % 1024 ||| b * 1024 = b * 1024 + x % 1024 :=
  lor_mod_mul 10 1024 (by norm_num) x b

theorem lor16384 (x b : Nat) : x % 16384 ||| b * 16384 = b * 16384 + x % 16384 :=
  lor_mod_mul 14 16384 (by norm_num) x b

theorem lor131072 (x b : Nat) : x % 131072 ||| b * 131072 = b * 131072 + x % 131072 :=
  lor_mod_mul 17 131072 (by norm_num) x b

theorem lor2097152 (x b : Nat) : x % 2097152 ||| b * 2097152 = b * 2097152 + x % 2097152 :=
  lor_mod_mul 21 2097152 (by norm_num) x b

theorem lor16777216 (x b : Nat) : x % 16777216 ||| b * 16777216 = b * 16777216 + x % 16777216 :=
  lor_mod_mul 24 16777216 (by norm_num) x b

theorem lor268435456 (x b : Nat) :
    x % 268435456 ||| b * 268435456 = b * 268435456 + x % 268435456 :=
  lor_mod_mul 28 268435456 (by norm_num) x b

/-- The wrapped fifth-byte contribution `(b << 28) % 2^32` keeps only the low
four bits of `b`. -/
theorem mul28_mod32 (b : Nat) : b * 268435456 % 2 ^ 32 = b % 16 * 268435456 := by
  rw [show (2 : Nat) ^ 32 = 16 * 268435456 by norm_num, Nat.mul_mod_mul_right]

/-- Bitwise or against an all-ones mask complement: for `x < 2^n`,
`x ^^^ (2^n - 1) = 2^n - 1 - x`. -/
theorem xor_all_ones {n : Nat} {x : Nat} (h : x < 2 ^ n) : x ^^^ (2 ^ n - 1) = 2 ^ n - 1 - x := by
  apply Nat.eq_of_testBit_eq
  intro k
  rw [Nat.testBit_xor, show 2 ^ n - 1 - x = 2 ^ n - (x + 1) by omega,
    Nat.testBit_two_pow_sub_succ h, Nat.testBit_two_pow_sub_one]
  rcases Nat.lt_or_ge k n with hk | hk
  · simp [hk]
  · have hx : x.testBit k = false :=
      Nat.testBit_lt_two_pow (Nat.lt_of_lt_of_le h (Nat.pow_le_pow_right (by norm_num) hk))
    simp [hx, Nat.not_lt.mpr hk, Nat.lt_irrefl]

/-! # Varint round-trip (claim C6) -/

/-- Decoding the canonical encoding of a 32-bit value recovers the value. -/
theorem roundtrip_u32 (v : Nat) (hv : v < 2 ^ 32) :
    (decode_varint_u32 (bufOfList (encode_varint v)) 0).2 = v := by
  rcases Nat.lt_or_ge v 0x80 with h1 | h1
  · have hE : encode_varint v = [v] := by
      rw [encode_varint, show (10 : Nat) = 9 + 1 from rfl, encode_go_succ, if_pos h1]
    rw [hE]
    have hb0 : bytestream_readbyte (bufOfList [v]) 0 = v % 256 := rfl
    simp only [decode_varint_u32, hb0]
    rw [if_neg (by omega : ¬ v % 256 > 127)]
    omega
  rcases Nat.lt_or_ge v 0x4000 with h2 | h2
  · have hE : encode_varint v = [v % 128 + 128, v / 128] := by
      rw [encode_varint, show (10 : Nat) = 9 + 1 from rfl, encode_go_succ, if_neg (by omega),
        show (9 : Nat) = 8 + 1 from rfl, encode_go_succ, if_pos (by omega)]
    rw [hE]
    have hb0 : bytestream_readbyte (bufOfList [v % 128 + 128, v / 128]) 0 =
        (v % 128 + 128) % 256 := rfl
    have hb1 : bytestream_readbyte (bufOfList [v % 128 + 128, v / 128]) (0 + 1) =
        v / 128 % 256 := rfl
    simp only [decode_varint_u32, hb0, hb1]
    rw [if_pos (by omega : (v % 128 + 128) % 256 > 127),
      if_neg (by omega : ¬ v / 128 % 256 > 127)]
    simp only [and127, shl7, lor128]
    omega
  rcases Nat.lt_or_ge v 0x200000 with h3 | h3
  · have hE : encode_varint v = [v % 128 + 128, v / 128 % 128 + 128, v / 128 / 128] := by
      rw [encode_varint, show (10 : Nat) = 9 + 1 from rfl, encode_go_succ, if_neg (by omega),
        show (9 : Nat) = 8 + 1 from rfl, encode_go_succ, if_neg (by omega),
        show (8 : Nat) = 7 + 1 from rfl, encode_go_succ, if_pos (by omega)]
    rw [hE]
    have hb0 : bytestream_readbyte
        (bufOfList [v % 128 + 128, v / 128 % 128 + 128, v / 128 / 128]) 0 =
        (v % 128 + 128) % 256 := rfl
    have hb1 : bytestream_readbyte
        (bufOfList [v % 128 + 128, v / 128 % 128 + 128, v / 128 / 128]) (0 + 1) =
        (v / 128 % 128 + 128) % 256 := rfl
    have hb2 : bytestream_readbyte
        (bufOfList [v % 128 + 128, v / 128 % 128 + 128, v / 128 / 128]) (0 + 2) =
        v / 128 / 128 % 256 := rfl
    simp only [decode_varint_u32, hb0, hb1, hb2]
    rw [if_pos (by omega : (v % 128 + 128) % 256 > 127),
      if_pos (by omega : (v / 128 % 128 + 128) % 256 > 127),
      if_neg (by omega : ¬ v / 128 / 128 % 256 > 127)]
    simp only [and127, and16383, shl7, shl14, lor128, lor16384]
    omega
  rcases Nat.lt_or_ge v 0x10000000 with h4 | h4
  · have hE : encode_varint v =
        [v % 128 + 128, v / 128 % 128 + 128, v / 128 / 128 % 128 + 128, v / 128 / 128 / 128] := by
      rw [encode_varint, show (10 : Nat) = 9 + 1 from rfl, encode_go_succ, if_neg (by omega),
        show (9 : Nat) = 8 + 1 from rfl, encode_go_succ, if_neg (by omega),
        show (8 : Nat) = 7 + 1 from rfl, encode_go_succ, if_neg (by omega),
        show (7 : Nat) = 6 + 1 from rfl, encode_go_succ, if_pos (by omega)]
    rw [hE]
    have hb0 : bytestream_readbyte (bufOfList [v % 128 + 128, v / 128 % 128 + 128,
        v / 128 / 128 % 128 + 128, v / 128 / 128 / 128]) 0 = (v % 128 + 128) % 256 := rfl
    have hb1 : bytestream_readbyte (bufOfList [v % 128 + 128, v / 128 % 128 + 128,
        v / 128 / 128 % 128 + 128, v / 128 / 128 / 128]) (0 + 1) =
        (v / 128 % 128 + 128) % 256 := rfl
    have hb2 : bytestream_readbyte (bufOfList [v % 128 + 128, v / 128 % 128 + 128,
        v / 128 / 128 % 128 + 128, v / 128 / 128 / 128]) (0 + 2) =
        (v / 128 / 128 % 128 + 128) % 256 := rfl
    have hb3 : bytestream_readbyte (bufOfList [v % 128 + 128, v / 128 % 128 + 128,
        v / 128 / 128 % 128 + 128, v / 128 / 128 / 128]) (0 + 3) =
        v / 128 / 128 / 128 % 256 := rfl
    simp only [decode_varint_u32, hb0, hb1, hb2, hb3]
    rw [if_pos (by omega : (v % 128 + 128) % 256 > 127),
      if_pos (by omega : (v / 128 % 128 + 128) % 256 > 127),
      if_pos (by omega : (v / 128 / 128 % 128 + 128) % 256 > 127),
      if_neg (by omega : ¬ v / 128 / 128 / 128 % 256 > 127)]
    simp only [and127, and16383, and2097151, shl7, shl14, shl21, lor128, lor16384, lor2097152]
    omega
  · have hE : encode_varint v = [v % 128 + 128, v / 128 % 128 + 128, v / 128 / 128 % 128 + 128,
        v / 128 / 128 / 128 % 128 + 128, v / 128 / 128 / 128 / 128] := by
      rw [encode_varint, show (10 : Nat) = 9 + 1 from rfl, encode_go_succ, if_neg (by omega),
        show (9 : Nat) = 8 + 1 from rfl, encode_go_succ, if_neg (by omega),
        show (8 : Nat) = 7 + 1 from rfl, encode_go_succ, if_neg (by omega),
        show (7 : Nat) = 6 + 1 from rfl, encode_go_succ, if_neg (by omega),
        show (6 : Nat) = 5 + 1 from rfl, encode_go_succ, if_pos (by omega)]
    rw [hE]
    have hb0 : bytestream_readbyte (bufOfList [v % 128 + 128, v / 128 % 128 + 128,
        v / 128 / 128 % 128 + 128, v / 128 / 128 / 128 % 128 + 128, v / 128 / 128 / 128 / 128]) 0 =
        (v % 128 + 128) % 256 := rfl
    have hb1 : bytestream_readbyte (bufOfList [v % 128 + 128, v / 128 % 128 + 128,
        v / 128 / 128 % 128 + 128, v / 128 / 128 / 128 % 128 + 128, v / 128 / 128 / 128 / 128])
        (0 + 1) = (v / 128 % 128 + 128) % 256 := rfl
    have hb2 : bytestream_readbyte (bufOfList [v % 128 + 128, v / 128 % 128 + 128,
        v / 128 / 128 % 128 + 128, v / 128 / 128 / 128 % 128 + 128, v / 128 / 128 / 128 / 128])
        (0 + 2) = (v / 128 / 128 % 128 + 128) % 256 := rfl
    have hb3 : bytestream_readbyte (bufOfList [v % 128 + 128, v / 128 % 128 + 128,
        v / 128 / 128 % 128 + 128, v / 128 / 128 / 128 % 128 + 128, v / 128 / 128 / 128 / 128])
        (0 + 3) = (v / 128 / 128 / 128 % 128 + 128) % 256 := rfl
    have hb4 : bytestream_readbyte (bufOfList [v % 128 + 128, v / 128 % 128 + 128,
        v / 128 / 128 % 128 + 128, v / 128 / 128 / 128 % 128 + 128, v / 128 / 128 / 128 / 128])
        (0 + 4) = v / 128 / 128 / 128 / 128 % 256 := rfl
    simp only [decode_varint_u32, hb0, hb1, hb2, hb3, hb4]
    rw [if_pos (by omega : (v % 128 + 128) % 256 > 127),
      if_pos (by omega : (v / 128 % 128 + 128) % 256 > 127),
      if_pos (by omega : (v / 128 / 128 % 128 + 128) % 256 > 127),
      if_pos (by omega : (v / 128 / 128 / 128 % 128 + 128) % 256 > 127)]
    simp only [and127, and16383, and2097151, and268435455, shl7, shl14, shl21, shl28,
      lor128, lor16384, lor2097152, mul28_mod32, lor268435456]
    omega

set_option maxHeartbeats 2000000 in
/-- Decoding the canonical encoding of a 64-bit value recovers the value,
provided the value is below 2^32 or at least 2^35 (outside the window in
which the fifth-byte shift wraps the 32-bit accumulator). -/
theorem roundtrip_u64 (v : Nat) (hv : v < 2 ^ 64) (hdom : v < 2 ^ 32 ∨ 2 ^ 35 ≤ v) :
    (decode_varint_u64 (bufOfList (encode_varint v)) 0).2 = v := by
  rcases Nat.lt_or_ge v 0x80 with h1 | h1
  · have hE : encode_varint v = [v] := by
      rw [encode_varint, show (10 : Nat) = 9 + 1 from rfl, encode_go_succ, if_pos (by omega)]
    rw [hE]
    have hb0 : bytestream_readbyte (bufOfList [v]) 0 =
        v % 256 := rfl
    simp only [decode_varint_u64, hb0]
    rw [if_neg (by omega : ¬ v % 256 > 127)]
    omega
  rcases Nat.lt_or_ge v 0x4000 with h2 | h2
  · have hE : encode_varint v = [v % 128 + 128, v / 128] := by
      rw [encode_varint, show (10 : Nat) = 9 + 1 from rfl, encode_go_succ, if_neg (by omega), show (9 : Nat) = 8 + 1 from rfl, encode_go_succ, if_pos (by omega)]
    rw [hE]
    have hb0 : bytestream_readbyte (bufOfList [v % 128 + 128, v / 128]) 0 =
        (v % 128 + 128) % 256 := rfl
    have hb1 : bytestream_readbyte (bufOfList [v % 128 + 128, v / 128]) (0 + 1) =
        v / 128 % 256 := rfl
    simp only [decode_varint_u64, hb0, hb1]
    rw [if_pos (by omega : (v % 128 + 128) % 256 > 127),
      if_neg (by omega : ¬ v / 128 % 256 > 127)]
    simp only [and127, shl7, lor128]
    omega
  rcases Nat.lt_or_ge v 0x200000 with h3 | h3
  · have hE : encode_varint v = [v % 128 + 128, v / 128 % 128 + 128, v / 128 / 128] := by
      rw [encode_varint, show (10 : Nat) = 9 + 1 from rfl, encode_go_succ, if_neg (by omega), show (9 : Nat) = 8 + 1 from rfl, encode_go_succ, if_neg (by omega), show (8 : Nat) = 7 + 1 from rfl, encode_go_succ, if_pos (by omega)]
    rw [hE]
    have hb0 : bytestream_readbyte (bufOfList [v % 128 + 128, v / 128 % 128 + 128, v / 128 / 128]) 0 =
        (v % 128 + 128) % 256 := rfl
    have hb1 : bytestream_readbyte (bufOfList [v % 128 + 128, v / 128 % 128 + 128, v / 128 / 128]) (0 + 1) =
        (v / 128 % 128 + 128) % 256 := rfl
    have hb2 : bytestream_readbyte (bufOfList [v % 128 + 128, v / 128 % 128 + 128, v / 128 / 128]) (0 + 2) =
        v / 128 / 128 % 256 := rfl
    simp only [decode_varint_u64, hb0, hb1, hb2]
    rw [if_pos (by omega : (v % 128 + 128) % 256 > 127),
      if_pos (by omega : (v / 128 % 128 + 128) % 256 > 127),
      if_neg (by omega : ¬ v / 128 / 128 % 256 > 127)]
    simp only [and127, and16383, shl7, shl14, lor128, lor16384]
    omega
  rcases Nat.lt_or_ge v 0x10000000 with h4 | h4
  · have hE : encode_varint v = [v % 128 + 128, v / 128 % 128 + 128, v / 128 / 128 % 128 + 128, v / 128 / 128 / 128] := by
      rw [encode_varint, show (10 : Nat) = 9 + 1 from rfl, encode_go_succ, if_neg (by omega), show (9 : Nat) = 8 + 1 from rfl, encode_go_succ, if_neg (by omega), show (8 : Nat) = 7 + 1 from rfl, encode_go_succ, if_neg (by omega), show (7 : Nat) = 6 + 1 from rfl, encode_go_succ, if_pos (by omega)]
    rw [hE]
    have hb0 : bytestream_readbyte (bufOfList [v % 128 + 128, v / 128 % 128 + 128, v / 128 / 128 % 128 + 128, v / 128 / 128 / 128]) 0 =
        (v % 128 + 128) % 256 := rfl
    have hb1 : bytestream_readbyte (bufOfList [v % 128 + 128, v / 128 % 128 + 128, v / 128 / 128 % 128 + 128, v / 128 / 128 / 128]) (0 + 1) =
        (v / 128 % 128 + 128) % 256 := rfl
    have hb2 : bytestream_readbyte (bufOfList [v % 128 + 128, v / 128 % 128 + 128, v / 128 / 128 % 128 + 128, v / 128 / 128 / 128]) (0 + 2) =
        (v / 128 / 128 % 128 + 128) % 256 := rfl
    have hb3 : bytestream_readbyte (bufOfList [v % 128 + 128, v / 128 % 128 + 128, v / 128 / 128 % 128 + 128, v / 128 / 128 / 128]) (0 + 3) =
        v / 128 / 128 / 128 % 256 := rfl
    simp only [decode_varint_u64, hb0, hb1, hb2, hb3]
    rw [if_pos (by omega : (v % 128 + 128) % 256 > 127),
      if_pos (by omega : (v / 128 % 128 + 128) % 256 > 127),
      if_pos (by omega : (v / 128 / 128 % 128 + 128) % 256 > 127),
      if_neg (by omega : ¬ v / 128 / 128 / 128 % 256 > 127)]
    simp only [and127, and16383, and2097151, shl7, shl14, shl21, lor128, lor16384, lor2097152]
    omega
  rcases Nat.lt_or_ge v (2 ^ 35) with h5 | h5
  · have hv32 : v < 2 ^ 32 := by omega
    have hE : encode_varint v = [v % 128 + 128, v / 128 % 128 + 128, v / 128 / 128 % 128 + 128, v / 128 / 128 / 128 % 128 + 128, v / 128 / 128 / 128 / 128] := by
      rw [encode_varint, show (10 : Nat) = 9 + 1 from rfl, encode_go_succ, if_neg (by omega), show (9 : Nat) = 8 + 1 from rfl, encode_go_succ, if_neg (by omega), show (8 : Nat) = 7 + 1 from rfl, encode_go_succ, if_neg (by omega), show (7 : Nat) = 6 + 1 from rfl, encode_go_succ, if_neg (by omega), show (6 : Nat) = 5 + 1 from rfl, encode_go_succ, if_pos (by omega)]
    rw [hE]
    have hb0 : bytestream_readbyte (bufOfList [v % 128 + 128, v / 128 % 128 + 128, v / 128 / 128 % 128 + 128, v / 128 / 128 / 128 % 128 + 128, v / 128 / 128 / 128 / 128]) 0 =
        (v % 128 + 128) % 256 := rfl
    have hb1 : bytestream_readbyte (bufOfList [v % 128 + 128, v / 128 % 128 + 128, v / 128 / 128 % 128 + 128, v / 128 / 128 / 128 % 128 + 128, v / 128 / 128 / 128 / 128]) (0 + 1) =
        (v / 128 % 128 + 128) % 256 := rfl
    have hb2 : bytestream_readbyte (bufOfList [v % 128 + 128, v / 128 % 128 + 128, v / 128 / 128 % 128 + 128, v / 128 / 128 / 128 % 128 + 128, v / 128 / 128 / 128 / 128]) (0 + 2) =
        (v / 128 / 128 % 128 + 128) % 256 := rfl
    have hb3 : bytestream_readbyte (bufOfList [v % 128 + 128, v / 128 % 128 + 128, v / 128 / 128 % 128 + 128, v / 128 / 128 / 128 % 128 + 128, v / 128 / 128 / 128 / 128]) (0 + 3) =
        (v / 128 / 128 / 128 % 128 + 128) % 256 := rfl
    have hb4 : bytestream_readbyte (bufOfList [v % 128 + 128, v / 128 % 128 + 128, v / 128 / 128 % 128 + 128, v / 128 / 128 / 128 % 128 + 128, v / 128 / 128 / 128 / 128]) (0 + 4) =
        v / 128 / 128 / 128 / 128 % 256 := rfl
    simp only [decode_varint_u64, hb0, hb1, hb2, hb3, hb4]
    rw [if_pos (by omega : (v % 128 + 128) % 256 > 127),
      if_pos (by omega : (v / 128 % 128 + 128) % 256 > 127),
      if_pos (by omega : (v / 128 / 128 % 128 + 128) % 256 > 127),
      if_pos (by omega : (v / 128 / 128 / 128 % 128 + 128) % 256 > 127),
      if_neg (by omega : ¬ v / 128 / 128 / 128 / 128 % 256 > 127)]
    simp only [and127, and16383, and2097151, and268435455, shl7, shl14, shl21, shl28, lor128, lor16384, lor2097152, mul28_mod32, lor268435456]
    omega
  rcases Nat.lt_or_ge v (2 ^ 42) with h6 | h6
  · have hE : encode_varint v = [v % 128 + 128, v / 128 % 128 + 128, v / 128 / 128 % 128 + 128, v / 128 / 128 / 128 % 128 + 128, v / 128 / 128 / 128 / 128 % 128 + 128, v / 128 / 128 / 128 / 128 / 128] := by
      rw [encode_varint, show (10 : Nat) = 9 + 1 from rfl, encode_go_succ, if_neg (by omega), show (9 : Nat) = 8 + 1 from rfl, encode_go_succ, if_neg (by omega), show (8 : Nat) = 7 + 1 from rfl, encode_go_succ, if_neg (by omega), show (7 : Nat) = 6 + 1 from rfl, encode_go_succ, if_neg (by omega), show (6 : Nat) = 5 + 1 from rfl, encode_go_succ, if_neg (by omega), show (5 : Nat) = 4 + 1 from rfl, encode_go_succ, if_pos (by omega)]
    rw [hE]
    have hb0 : bytestream_readbyte (bufOfList [v % 128 + 128, v / 128 % 128 + 128, v / 128 / 128 % 128 + 128, v / 128 / 128 / 128 % 128 + 128, v / 128 / 128 / 128 / 128 % 128 + 128, v / 128 / 128 / 128 / 128 / 128]) 0 =
        (v % 128 + 128) % 256 := rfl
    have hb1 : bytestream_readbyte (bufOfList [v % 128 + 128, v / 128 % 128 + 128, v / 128 / 128 % 128 + 128, v / 128 / 128 / 128 % 128 + 128, v / 128 / 128 / 128 / 128 % 128 + 128, v / 128 / 128 / 128 / 128 / 128]) (0 + 1) =
        (v / 128 % 128 + 128) % 256 := rfl
    have hb2 : bytestream_readbyte (bufOfList [v % 128 + 128, v / 128 % 128 + 128, v / 128 / 128 % 128 + 128, v / 128 / 128 / 128 % 128 + 128, v / 128 / 128 / 128 / 128 % 128 + 128, v / 128 / 128 / 128 / 128 / 128]) (0 + 2) =
        (v / 128 / 128 % 128 + 128) % 256 := rfl
    have hb3 : bytestream_readbyte (bufOfList [v % 128 + 128, v / 128 % 128 + 128, v / 128 / 128 % 128 + 128, v / 128 / 128 / 128 % 128 + 128, v / 128 / 128 / 128 / 128 % 128 + 128, v / 128 / 128 / 128 / 128 / 128]) (0 + 3) =
        (v / 128 / 128 / 128 % 128 + 128) % 256 := rfl
    have hb4 : bytestream_readbyte (bufOfList [v % 128 + 128, v / 128 % 128 + 128, v / 128 / 128 % 128 + 128, v / 128 / 128 / 128 % 128 + 128, v / 128 / 128 / 128 / 128 % 128 + 128, v / 128 / 128 / 128 / 128 / 128]) (0 + 4) =
        (v / 128 / 128 / 128 / 128 % 128 + 128) % 256 := rfl
    have hb5 : bytestream_readbyte (bufOfList [v % 128 + 128, v / 128 % 128 + 128, v / 128 / 128 % 128 + 128, v / 128 / 128 / 128 % 128 + 128, v / 128 / 128 / 128 / 128 % 128 + 128, v / 128 / 128 / 128 / 128 / 128]) (0 + 5) =
        v / 128 / 128 / 128 / 128 / 128 % 256 := rfl
    simp only [decode_varint_u64, hb0, hb1, hb2, hb3, hb4, hb5]
    rw [if_pos (by omega : (v % 128 + 128) % 256 > 127),
      if_pos (by omega : (v / 128 % 128 + 128) % 256 > 127),
      if_pos (by omega : (v / 128 / 128 % 128 + 128) % 256 > 127),
      if_pos (by omega : (v / 128 / 128 / 128 % 128 + 128) % 256 > 127),
      if_pos (by omega : (v / 128 / 128 / 128 / 128 % 128 + 128) % 256 > 127),
      if_neg (by omega : ¬ v / 128 / 128 / 128 / 128 / 128 % 256 > 127)]
    simp only [and127, and16383, and2097151, and268435455, shl7, shl14, shl21, shl28, lor128, lor16384, lor2097152, mul28_mod32, lor268435456, shr4, and7, shl3, lor8]
    omega
  rcases Nat.lt_or_ge v (2 ^ 49) with h7 | h7
  · have hE : encode_varint v = [v % 128 + 128, v / 128 % 128 + 128, v / 128 / 128 % 128 + 128, v / 128 / 128 / 128 % 128 + 128, v / 128 / 128 / 128 / 128 % 128 + 128, v / 128 / 128 / 128 / 128 / 128 % 128 + 128, v / 128 / 128 / 128 / 128 / 128 / 128] := by
      rw [encode_varint, show (10 : Nat) = 9 + 1 from rfl, encode_go_succ, if_neg (by omega), show (9 : Nat) = 8 + 1 from rfl, encode_go_succ, if_neg (by omega), show (8 : Nat) = 7 + 1 from rfl, encode_go_succ, if_neg (by omega), show (7 : Nat) = 6 + 1 from rfl, encode_go_succ, if_neg (by omega), show (6 : Nat) = 5 + 1 from rfl, encode_go_succ, if_neg (by omega), show (5 : Nat) = 4 + 1 from rfl, encode_go_succ, if_neg (by omega), show (4 : Nat) = 3 + 1 from rfl, encode_go_succ, if_pos (by omega)]
    rw [hE]
    have hb0 : bytestream_readbyte (bufOfList [v % 128 + 128, v / 128 % 128 + 128, v / 128 / 128 % 128 + 128, v / 128 / 128 / 128 % 128 + 128, v / 128 / 128 / 128 / 128 % 128 + 128, v / 128 / 128 / 128 / 128 / 128 % 128 + 128, v / 128 / 128 / 128 / 128 / 128 / 128]) 0 =
        (v % 128 + 128) % 256 := rfl
    have hb1 : bytestream_readbyte (bufOfList [v % 128 + 128, v / 128 % 128 + 128, v / 128 / 128 % 128 + 128, v / 128 / 128 / 128 % 128 + 128, v / 128 / 128 / 128 / 128 % 128 + 128, v / 128 / 128 / 128 / 128 / 128 % 128 + 128, v / 128 / 128 / 128 / 128 / 128 / 128]) (0 + 1) =
        (v / 128 % 128 + 128) % 256 := rfl
    have hb2 : bytestream_readbyte (bufOfList [v % 128 + 128, v / 128 % 128 + 128, v / 128 / 128 % 128 + 128, v / 128 / 128 / 128 % 128 + 128, v / 128 / 128 / 128 / 128 % 128 + 128, v / 128 / 128 / 128 / 128 / 128 % 128 + 128, v / 128 / 128 / 128 / 128 / 128 / 128]) (0 + 2) =
        (v / 128 / 128 % 128 + 128) % 256 := rfl
    have hb3 : bytestream_readbyte (bufOfList [v % 128 + 128, v / 128 % 128 + 128, v / 128 / 128 % 128 + 128, v / 128 / 128 / 128 % 128 + 128, v / 128 / 128 / 128 / 128 % 128 + 128, v / 128 / 128 / 128 / 128 / 128 % 128 + 128, v / 128 / 128 / 128 / 128 / 128 / 128]) (0 + 3) =
        (v / 128 / 128 / 128 % 128 + 128) % 256 := rfl
    have hb4 : bytestream_readbyte (bufOfList [v % 128 + 128, v / 128 % 128 + 128, v / 128 / 128 % 128 + 128, v / 128 / 128 / 128 % 128 + 128, v / 128 / 128 / 128 / 128 % 128 + 128, v / 128 / 128 / 128 / 128 / 128 % 128 + 128, v / 128 / 128 / 128 / 128 / 128 / 128]) (0 + 4) =
        (v / 128 / 128 / 128 / 128 % 128 + 128) % 256 := rfl
    have hb5 : bytestream_readbyte (bufOfList [v % 128 + 128, v / 128 % 128 + 128, v / 128 / 128 % 128 + 128, v / 128 / 128 / 128 % 128 + 128, v / 128 / 128 / 128 / 128 % 128 + 128, v / 128 / 128 / 128 / 128 / 128 % 128 + 128, v / 128 / 128 / 128 / 128 / 128 / 128]) (0 + 5) =
        (v / 128 / 128 / 128 / 128 / 128 % 128 + 128) % 256 := rfl
    have hb6 : bytestream_readbyte (bufOfList [v % 128 + 128, v / 128 % 128 + 128, v / 128 / 128 % 128 + 128, v / 128 / 128 / 128 % 128 + 128, v / 128 / 128 / 128 / 128 % 128 + 128, v / 128 / 128 / 128 / 128 / 128 % 128 + 128, v / 128 / 128 / 128 / 128 / 128 / 128]) (0 + 6) =
        v / 128 / 128 / 128 / 128 / 128 / 128 % 256 := rfl
    simp only [decode_varint_u64, hb0, hb1, hb2, hb3, hb4, hb5, hb6]
    rw [if_pos (by omega : (v % 128 + 128) % 256 > 127),
      if_pos (by omega : (v / 128 % 128 + 128) % 256 > 127),
      if_pos (by omega : (v / 128 / 128 % 128 + 128) % 256 > 127),
      if_pos (by omega : (v / 128 / 128 / 128 % 128 + 128) % 256 > 127),
      if_pos (by omega : (v / 128 / 128 / 128 / 128 % 128 + 128) % 256 > 127),
      if_pos (by omega : (v / 128 / 128 / 128 / 128 / 128 % 128 + 128) % 256 > 127),
      if_neg (by omega : ¬ v / 128 / 128 / 128 / 128 / 128 / 128 % 256 > 127)]
    simp only [and127, and16383, and2097151, and268435455, shl7, shl14, shl21, shl28, lor128, lor16384, lor2097152, mul28_mod32, lor268435456, shr4, and7, shl3, lor8, and1023, shl10, lor1024]
    omega
  rcases Nat.lt_or_ge v (2 ^ 56) with h8 | h8
  · have hE : encode_varint v = [v % 128 + 128, v / 128 % 128 + 128, v / 128 / 128 % 128 + 128, v / 128 / 128 / 128 % 128 + 128, v / 128 / 128 / 128 / 128 % 128 + 128, v / 128 / 128 / 128 / 128 / 128 % 128 + 128, v / 128 / 128 / 128 / 128 / 128 / 128 % 128 + 128, v / 128 / 128 / 128 / 128 / 128 / 128 / 128] := by
      rw [encode_varint, show (10 : Nat) = 9 + 1 from rfl, encode_go_succ, if_neg (by omega), show (9 : Nat) = 8 + 1 from rfl, encode_go_succ, if_neg (by omega), show (8 : Nat) = 7 + 1 from rfl, encode_go_succ, if_neg (by omega), show (7 : Nat) = 6 + 1 from rfl, encode_go_succ, if_neg (by omega), show (6 : Nat) = 5 + 1 from rfl, encode_go_succ, if_neg (by omega), show (5 : Nat) = 4 + 1 from rfl, encode_go_succ, if_neg (by omega), show (4 : Nat) = 3 + 1 from rfl, encode_go_succ, if_neg (by omega), show (3 : Nat) = 2 + 1 from rfl, encode_go_succ, if_pos (by omega)]
    rw [hE]
    have hb0 : bytestream_readbyte (bufOfList [v % 128 + 128, v / 128 % 128 + 128, v / 128 / 128 % 128 + 128, v / 128 / 128 / 128 % 128 + 128, v / 128 / 128 / 128 / 128 % 128 + 128, v / 128 / 128 / 128 / 128 / 128 % 128 + 128, v / 128 / 128 / 128 / 128 / 128 / 128 % 128 + 128, v / 128 / 128 / 128 / 128 / 128 / 128 / 128]) 0 =
        (v % 128 + 128) % 256 := rfl
    have hb1 : bytestream_readbyte (bufOfList [v % 128 + 128, v / 128 % 128 + 128, v / 128 / 128 % 128 + 128, v / 128 / 128 / 128 % 128 + 128, v / 128 / 128 / 128 / 128 % 128 + 128, v / 128 / 128 / 128 / 128 / 128 % 128 + 128, v / 128 / 128 / 128 / 128 / 128 / 128 % 128 + 128, v / 128 / 128 / 128 / 128 / 128 / 128 / 128]) (0 + 1) =
        (v / 128 % 128 + 128) % 256 := rfl
    have hb2 : bytestream_readbyte (bufOfList [v % 128 + 128, v / 128 % 128 + 128, v / 128 / 128 % 128 + 128, v / 128 / 128 / 128 % 128 + 128, v / 128 / 128 / 128 / 128 % 128 + 128, v / 128 / 128 / 128 / 128 / 128 % 128 + 128, v / 128 / 128 / 128 / 128 / 128 / 128 % 128 + 128, v / 128 / 128 / 128 / 128 / 128 / 128 / 128]) (0 + 2) =
        (v / 128 / 128 % 128 + 128) % 256 := rfl
    have hb3 : bytestream_readbyte (bufOfList [v % 128 + 128, v / 128 % 128 + 128, v / 128 / 128 % 128 + 128, v / 128 / 128 / 128 % 128 + 128, v / 128 / 128 / 128 / 128 % 128 + 128, v / 128 / 128 / 128 / 128 / 128 % 128 + 128, v / 128 / 128 / 128 / 128 / 128 / 128 % 128 + 128, v / 128 / 128 / 128 / 128 / 128 / 128 / 128]) (0 + 3) =
        (v / 128 / 128 / 128 % 128 + 128) % 256 := rfl
    have hb4 : bytestream_readbyte (bufOfList [v % 128 + 128, v / 128 % 128 + 128, v / 128 / 128 % 128 + 128, v / 128 / 128 / 128 % 128 + 128, v / 128 / 128 / 128 / 128 % 128 + 128, v / 128 / 128 / 128 / 128 / 128 % 128 + 128, v / 128 / 128 / 128 / 128 / 128 / 128 % 128 + 128, v / 128 / 128 / 128 / 128 / 128 / 128 / 128]) (0 + 4) =
        (v / 128 / 128 / 128 / 128 % 128 + 128) % 256 := rfl
    have hb5 : bytestream_readbyte (bufOfList [v % 128 + 128, v / 128 % 128 + 128, v / 128 / 128 % 128 + 128, v / 128 / 128 / 128 % 128 + 128, v / 128 / 128 / 128 / 128 % 128 + 128, v / 128 / 128 / 128 / 128 / 128 % 128 + 128, v / 128 / 128 / 128 / 128 / 128 / 128 % 128 + 128, v / 128 / 128 / 128 / 128 / 128 / 128 / 128]) (0 + 5) =
        (v / 128 / 128 / 128 / 128 / 128 % 128 + 128) % 256 := rfl
    have hb6 : bytestream_readbyte (bufOfList [v % 128 + 128, v / 128 % 128 + 128, v / 128 / 128 % 128 + 128, v / 128 / 128 / 128 % 128 + 128, v / 128 / 128 / 128 / 128 % 128 + 128, v / 128 / 128 / 128 / 128 / 128 % 128 + 128, v / 128 / 128 / 128 / 128 / 128 / 128 % 128 + 128, v / 128 / 128 / 128 / 128 / 128 / 128 / 128]) (0 + 6) =
        (v / 128 / 128 / 128 / 128 / 128 / 128 % 128 + 128) % 256 := rfl
    have hb7 : bytestream_readbyte (bufOfList [v % 128 + 128, v / 128 % 128 + 128, v / 128 / 128 % 128 + 128, v / 128 / 128 / 128 % 128 + 128, v / 128 / 128 / 128 / 128 % 128 + 128, v / 128 / 128 / 128 / 128 / 128 % 128 + 128, v / 128 / 128 / 128 / 128 / 128 / 128 % 128 + 128, v / 128 / 128 / 128 / 128 / 128 / 128 / 128]) (0 + 7) =
        v / 128 / 128 / 128 / 128 / 128 / 128 / 128 % 256 := rfl
    simp only [decode_varint_u64, hb0, hb1, hb2, hb3, hb4, hb5, hb6, hb7]
    rw [if_pos (by omega : (v % 128 + 128) % 256 > 127),
      if_pos (by omega : (v / 128 % 128 + 128) % 256 > 127),
      if_pos (by omega : (v / 128 / 128 % 128 + 128) % 256 > 127),
      if_pos (by omega : (v / 128 / 128 / 128 % 128 + 128) % 256 > 127),
      if_pos (by omega : (v / 128 / 128 / 128 / 128 % 128 + 128) % 256 > 127),
      if_pos (by omega : (v / 128 / 128 / 128 / 128 / 128 % 128 + 128) % 256 > 127),
      if_pos (by omega : (v / 128 / 128 / 128 / 128 / 128 / 128 % 128 + 128) % 256 > 127),
      if_neg (by omega : ¬ v / 128 / 128 / 128 / 128 / 128 / 128 / 128 % 256 > 127)]
    simp only [and127, and16383, and2097151, and268435455, shl7, shl14, shl21, shl28, lor128, lor16384, lor2097152, mul28_mod32, lor268435456, shr4, and7, shl3, lor8, and1023, shl10, lor1024, and131071, shl17, lor131072]
    omega
  rcases Nat.lt_or_ge v (2 ^ 63) with h9 | h9
  · have hE : encode_varint v = [v % 128 + 128, v / 128 % 128 + 128, v / 128 / 128 % 128 + 128, v / 128 / 128 / 128 % 128 + 128, v / 128 / 128 / 128 / 128 % 128 + 128, v / 128 / 128 / 128 / 128 / 128 % 128 + 128, v / 128 / 128 / 128 / 128 / 128 / 128 % 128 + 128, v / 128 / 128 / 128 / 128 / 128 / 128 / 128 % 128 + 128, v / 128 / 128 / 128 / 128 / 128 / 128 / 128 / 128] := by
      rw [encode_varint, show (10 : Nat) = 9 + 1 from rfl, encode_go_succ, if_neg (by omega), show (9 : Nat) = 8 + 1 from rfl, encode_go_succ, if_neg (by omega), show (8 : Nat) = 7 + 1 from rfl, encode_go_succ, if_neg (by omega), show (7 : Nat) = 6 + 1 from rfl, encode_go_succ, if_neg (by omega), show (6 : Nat) = 5 + 1 from rfl, encode_go_succ, if_neg (by omega), show (5 : Nat) = 4 + 1 from rfl, encode_go_succ, if_neg (by omega), show (4 : Nat) = 3 + 1 from rfl, encode_go_succ, if_neg (by omega), show (3 : Nat) = 2 + 1 from rfl, encode_go_succ, if_neg (by omega), show (2 : Nat) = 1 + 1 from rfl, encode_go_succ, if_pos (by omega)]
    rw [hE]
    have hb0 : bytestream_readbyte (bufOfList [v % 128 + 128, v / 128 % 128 + 128, v / 128 / 128 % 128 + 128, v / 128 / 128 / 128 % 128 + 128, v / 128 / 128 / 128 / 128 % 128 + 128, v / 128 / 128 / 128 / 128 / 128 % 128 + 128, v / 128 / 128 / 128 / 128 / 128 / 128 % 128 + 128, v / 128 / 128 / 128 / 128 / 128 / 128 / 128 % 128 + 128, v / 128 / 128 / 128 / 128 / 128 / 128 / 128 / 128]) 0 =
        (v % 128 + 128) % 256 := rfl
    have hb1 : bytestream_readbyte (bufOfList [v % 128 + 128, v / 128 % 128 + 128, v / 128 / 128 % 128 + 128, v / 128 / 128 / 128 % 128 + 128, v / 128 / 128 / 128 / 128 % 128 + 128, v / 128 / 128 / 128 / 128 / 128 % 128 + 128, v / 128 / 128 / 128 / 128 / 128 / 128 % 128 + 128, v / 128 / 128 / 128 / 128 / 128 / 128 / 128 % 128 + 128, v / 128 / 128 / 128 / 128 / 128 / 128 / 128 / 128]) (0 + 1) =
        (v / 128 % 128 + 128) % 256 := rfl
    have hb2 : bytestream_readbyte (bufOfList [v % 128 + 128, v / 128 % 128 + 128, v / 128 / 128 % 128 + 128, v / 128 / 128 / 128 % 128 + 128, v / 128 / 128 / 128 / 128 % 128 + 128, v / 128 / 128 / 128 / 128 / 128 % 128 + 128, v / 128 / 128 / 128 / 128 / 128 / 128 % 128 + 128, v / 128 / 128 / 128 / 128 / 128 / 128 / 128 % 128 + 128, v / 128 / 128 / 128 / 128 / 128 / 128 / 128 / 128]) (0 + 2) =
        (v / 128 / 128 % 128 + 128) % 256 := rfl
    have hb3 : bytestream_readbyte (bufOfList [v % 128 + 128, v / 128 % 128 + 128, v / 128 / 128 % 128 + 128, v / 128 / 128 / 128 % 128 + 128, v / 128 / 128 / 128 / 128 % 128 + 128, v / 128 / 128 / 128 / 128 / 128 % 128 + 128, v / 128 / 128 / 128 / 128 / 128 / 128 % 128 + 128, v / 128 / 128 / 128 / 128 / 128 / 128 / 128 % 128 + 128, v / 128 / 128 / 128 / 128 / 128 / 128 / 128 / 128]) (0 + 3) =
        (v / 128 / 128 / 128 % 128 + 128) % 256 := rfl
    have hb4 : bytestream_readbyte (bufOfList [v % 128 + 128, v / 128 % 128 + 128, v / 128 / 128 % 128 + 128, v / 128 / 128 / 128 % 128 + 128, v / 128 / 128 / 128 / 128 % 128 + 128, v / 128 / 128 / 128 / 128 / 128 % 128 + 128, v / 128 / 128 / 128 / 128 / 128 / 128 % 128 + 128, v / 128 / 128 / 128 / 128 / 128 / 128 / 128 % 128 + 128, v / 128 / 128 / 128 / 128 / 128 / 128 / 128 / 128]) (0 + 4) =
        (v / 128 / 128 / 128 / 128 % 128 + 128) % 256 := rfl
    have hb5 : bytestream_readbyte (bufOfList [v % 128 + 128, v / 128 % 128 + 128, v / 128 / 128 % 128 + 128, v / 128 / 128 / 128 % 128 + 128, v / 128 / 128 / 128 / 128 % 128 + 128, v / 128 / 128 / 128 / 128 / 128 % 128 + 128, v / 128 / 128 / 128 / 128 / 128 / 128 % 128 + 128, v / 128 / 128 / 128 / 128 / 128 / 128 / 128 % 128 + 128, v / 128 / 128 / 128 / 128 / 128 / 128 / 128 / 128]) (0 + 5) =
        (v / 128 / 128 / 128 / 128 / 128 % 128 + 128) % 256 := rfl
    have hb6 : bytestream_readbyte (bufOfList [v % 128 + 128, v / 128 % 128 + 128, v / 128 / 128 % 128 + 128, v / 128 / 128 / 128 % 128 + 128, v / 128 / 128 / 128 / 128 % 128 + 128, v / 128 / 128 / 128 / 128 / 128 % 128 + 128, v / 128 / 128 / 128 / 128 / 128 / 128 % 128 + 128, v / 128 / 128 / 128 / 128 / 128 / 128 / 128 % 128 + 128, v / 128 / 128 / 128 / 128 / 128 / 128 / 128 / 128]) (0 + 6) =
        (v / 128 / 128 / 128 / 128 / 128 / 128 % 128 + 128) % 256 := rfl
    have hb7 : bytestream_readbyte (bufOfList [v % 128 + 128, v / 128 % 128 + 128, v / 128 / 128 % 128 + 128, v / 128 / 128 / 128 % 128 + 128, v / 128 / 128 / 128 / 128 % 128 + 128, v / 128 / 128 / 128 / 128 / 128 % 128 + 128, v / 128 / 128 / 128 / 128 / 128 / 128 % 128 + 128, v / 128 / 128 / 128 / 128 / 128 / 128 / 128 % 128 + 128, v / 128 / 128 / 128 / 128 / 128 / 128 / 128 / 128]) (0 + 7) =
        (v / 128 / 128 / 128 / 128 / 128 / 128 / 128 % 128 + 128) % 256 := rfl
    have hb8 : bytestream_readbyte (bufOfList [v % 128 + 128, v / 128 % 128 + 128, v / 128 / 128 % 128 + 128, v / 128 / 128 / 128 % 128 + 128, v / 128 / 128 / 128 / 128 % 128 + 128, v / 128 / 128 / 128 / 128 / 128 % 128 + 128, v / 128 / 128 / 128 / 128 / 128 / 128 % 128 + 128, v / 128 / 128 / 128 / 128 / 128 / 128 / 128 % 128 + 128, v / 128 / 128 / 128 / 128 / 128 / 128 / 128 / 128]) (0 + 8) =
        v / 128 / 128 / 128 / 128 / 128 / 128 / 128 / 128 % 256 := rfl
    simp only [decode_varint_u64, hb0, hb1, hb2, hb3, hb4, hb5, hb6, hb7, hb8]
    rw [if_pos (by omega : (v % 128 + 128) % 256 > 127),
      if_pos (by omega : (v / 128 % 128 + 128) % 256 > 127),
      if_pos (by omega : (v / 128 / 128 % 128 + 128) % 256 > 127),
      if_pos (by omega : (v / 128 / 128 / 128 % 128 + 128) % 256 > 127),
      if_pos (by omega : (v / 128 / 128 / 128 / 128 % 128 + 128) % 256 > 127),
      if_pos (by omega : (v / 128 / 128 / 128 / 128 / 128 % 128 + 128) % 256 > 127),
      if_pos (by omega : (v / 128 / 128 / 128 / 128 / 128 / 128 % 128 + 128) % 256 > 127),
      if_pos (by omega : (v / 128 / 128 / 128 / 128 / 128 / 128 / 128 % 128 + 128) % 256 > 127),
      if_neg (by omega : ¬ v / 128 / 128 / 128 / 128 / 128 / 128 / 128 / 128 % 256 > 127)]
    simp only [and127, and16383, and2097151, and268435455, shl7, shl14, shl21, shl28, lor128, lor16384, lor2097152, mul28_mod32, lor268435456, shr4, and7, shl3, lor8, and1023, shl10, lor1024, and131071, shl17, lor131072, and16777215, shl24, lor16777216]
    omega
  · have hE : encode_varint v = [v % 128 + 128, v / 128 % 128 + 128, v / 128 / 128 % 128 + 128, v / 128 / 128 / 128 % 128 + 128, v / 128 / 128 / 128 / 128 % 128 + 128, v / 128 / 128 / 128 / 128 / 128 % 128 + 128, v / 128 / 128 / 128 / 128 / 128 / 128 % 128 + 128, v / 128 / 128 / 128 / 128 / 128 / 128 / 128 % 128 + 128, v / 128 / 128 / 128 / 128 / 128 / 128 / 128 / 128 % 128 + 128, v / 128 / 128 / 128 / 128 / 128 / 128 / 128 / 128 / 128] := by
      rw [encode_varint, show (10 : Nat) = 9 + 1 from rfl, encode_go_succ, if_neg (by omega), show (9 : Nat) = 8 + 1 from rfl, encode_go_succ, if_neg (by omega), show (8 : Nat) = 7 + 1 from rfl, encode_go_succ, if_neg (by omega), show (7 : Nat) = 6 + 1 from rfl, encode_go_succ, if_neg (by omega), show (6 : Nat) = 5 + 1 from rfl, encode_go_succ, if_neg (by omega), show (5 : Nat) = 4 + 1 from rfl, encode_go_succ, if_neg (by omega), show (4 : Nat) = 3 + 1 from rfl, encode_go_succ, if_neg (by omega), show (3 : Nat) = 2 + 1 from rfl, encode_go_succ, if_neg (by omega), show (2 : Nat) = 1 + 1 from rfl, encode_go_succ, if_neg (by omega), show (1 : Nat) = 0 + 1 from rfl, encode_go_succ, if_pos (by omega)]
    rw [hE]
    have hb0 : bytestream_readbyte (bufOfList [v % 128 + 128, v / 128 % 128 + 128, v / 128 / 128 % 128 + 128, v / 128 / 128 / 128 % 128 + 128, v / 128 / 128 / 128 / 128 % 128 + 128, v / 128 / 128 / 128 / 128 / 128 % 128 + 128, v / 128 / 128 / 128 / 128 / 128 / 128 % 128 + 128, v / 128 / 128 / 128 / 128 / 128 / 128 / 128 % 128 + 128, v / 128 / 128 / 128 / 128 / 128 / 128 / 128 / 128 % 128 + 128, v / 128 / 128 / 128 / 128 / 128 / 128 / 128 / 128 / 128]) 0 =
        (v % 128 + 128) % 256 := rfl
    have hb1 : bytestream_readbyte (bufOfList [v % 128 + 128, v / 128 % 128 + 128, v / 128 / 128 % 128 + 128, v / 128 / 128 / 128 % 128 + 128, v / 128 / 128 / 128 / 128 % 128 + 128, v / 128 / 128 / 128 / 128 / 128 % 128 + 128, v / 128 / 128 / 128 / 128 / 128 / 128 % 128 + 128, v / 128 / 128 / 128 / 128 / 128 / 128 / 128 % 128 + 128, v / 128 / 128 / 128 / 128 / 128 / 128 / 128 / 128 % 128 + 128, v / 128 / 128 / 128 / 128 / 128 / 128 / 128 / 128 / 128]) (0 + 1) =
        (v / 128 % 128 + 128) % 256 := rfl
    have hb2 : bytestream_readbyte (bufOfList [v % 128 + 128, v / 128 % 128 + 128, v / 128 / 128 % 128 + 128, v / 128 / 128 / 128 % 128 + 128, v / 128 / 128 / 128 / 128 % 128 + 128, v / 128 / 128 / 128 / 128 / 128 % 128 + 128, v / 128 / 128 / 128 / 128 / 128 / 128 % 128 + 128, v / 128 / 128 / 128 / 128 / 128 / 128 / 128 % 128 + 128, v / 128 / 128 / 128 / 128 / 128 / 128 / 128 / 128 % 128 + 128, v / 128 / 128 / 128 / 128 / 128 / 128 / 128 / 128 / 128]) (0 + 2) =
        (v / 128 / 128 % 128 + 128) % 256 := rfl
    have hb3 : bytestream_readbyte (bufOfList [v % 128 + 128, v / 128 % 128 + 128, v / 128 / 128 % 128 + 128, v / 128 / 128 / 128 % 128 + 128, v / 128 / 128 / 128 / 128 % 128 + 128, v / 128 / 128 / 128 / 128 / 128 % 128 + 128, v / 128 / 128 / 128 / 128 / 128 / 128 % 128 + 128, v / 128 / 128 / 128 / 128 / 128 / 128 / 128 % 128 + 128, v / 128 / 128 / 128 / 128 / 128 / 128 / 128 / 128 % 128 + 128, v / 128 / 128 / 128 / 128 / 128 / 128 / 128 / 128 / 128]) (0 + 3) =
        (v / 128 / 128 / 128 % 128 + 128) % 256 := rfl
    have hb4 : bytestream_readbyte (bufOfList [v % 128 + 128, v / 128 % 128 + 128, v / 128 / 128 % 128 + 128, v / 128 / 128 / 128 % 128 + 128, v / 128 / 128 / 128 / 128 % 128 + 128, v / 128 / 128 / 128 / 128 / 128 % 128 + 128, v / 128 / 128 / 128 / 128 / 128 / 128 % 128 + 128, v / 128 / 128 / 128 / 128 / 128 / 128 / 128 % 128 + 128, v / 128 / 128 / 128 / 128 / 128 / 128 / 128 / 128 % 128 + 128, v / 128 / 128 / 128 / 128 / 128 / 128 / 128 / 128 / 128]) (0 + 4) =
        (v / 128 / 128 / 128 / 128 % 128 + 128) % 256 := rfl
    have hb5 : bytestream_readbyte (bufOfList [v % 128 + 128, v / 128 % 128 + 128, v / 128 / 128 % 128 + 128, v / 128 / 128 / 128 % 128 + 128, v / 128 / 128 / 128 / 128 % 128 + 128, v / 128 / 128 / 128 / 128 / 128 % 128 + 128, v / 128 / 128 / 128 / 128 / 128 / 128 % 128 + 128, v / 128 / 128 / 128 / 128 / 128 / 128 / 128 % 128 + 128, v / 128 / 128 / 128 / 128 / 128 / 128 / 128 / 128 % 128 + 128, v / 128 / 128 / 128 / 128 / 128 / 128 / 128 / 128 / 128]) (0 + 5) =
        (v / 128 / 128 / 128 / 128 / 128 % 128 + 128) % 256 := rfl
    have hb6 : bytestream_readbyte (bufOfList [v % 128 + 128, v / 128 % 128 + 128, v / 128 / 128 % 128 + 128, v / 128 / 128 / 128 % 128 + 128, v / 128 / 128 / 128 / 128 % 128 + 128, v / 128 / 128 / 128 / 128 / 128 % 128 + 128, v / 128 / 128 / 128 / 128 / 128 / 128 % 128 + 128, v / 128 / 128 / 128 / 128 / 128 / 128 / 128 % 128 + 128, v / 128 / 128 / 128 / 128 / 128 / 128 / 128 / 128 % 128 + 128, v / 128 / 128 / 128 / 128 / 128 / 128 / 128 / 128 / 128]) (0 + 6) =
        (v / 128 / 128 / 128 / 128 / 128 / 128 % 128 + 128) % 256 := rfl
    have hb7 : bytestream_readbyte (bufOfList [v % 128 + 128, v / 128 % 128 + 128, v / 128 / 128 % 128 + 128, v / 128 / 128 / 128 % 128 + 128, v / 128 / 128 / 128 / 128 % 128 + 128, v / 128 / 128 / 128 / 128 / 128 % 128 + 128, v / 128 / 128 / 128 / 128 / 128 / 128 % 128 + 128, v / 128 / 128 / 128 / 128 / 128 / 128 / 128 % 128 + 128, v / 128 / 128 / 128 / 128 / 128 / 128 / 128 / 128 % 128 + 128, v / 128 / 128 / 128 / 128 / 128 / 128 / 128 / 128 / 128]) (0 + 7) =
        (v / 128 / 128 / 128 / 128 / 128 / 128 / 128 % 128 + 128) % 256 := rfl
    have hb8 : bytestream_readbyte (bufOfList [v % 128 + 128, v / 128 % 128 + 128, v / 128 / 128 % 128 + 128, v / 128 / 128 / 128 % 128 + 128, v / 128 / 128 / 128 / 128 % 128 + 128, v / 128 / 128 / 128 / 128 / 128 % 128 + 128, v / 128 / 128 / 128 / 128 / 128 / 128 % 128 + 128, v / 128 / 128 / 128 / 128 / 128 / 128 / 128 % 128 + 128, v / 128 / 128 / 128 / 128 / 128 / 128 / 128 / 128 % 128 + 128, v / 128 / 128 / 128 / 128 / 128 / 128 / 128 / 128 / 128]) (0 + 8) =
        (v / 128 / 128 / 128 / 128 / 128 / 128 / 128 / 128 % 128 + 128) % 256 := rfl
    have hb9 : bytestream_readbyte (bufOfList [v % 128 + 128, v / 128 % 128 + 128, v / 128 / 128 % 128 + 128, v / 128 / 128 / 128 % 128 + 128, v / 128 / 128 / 128 / 128 % 128 + 128, v / 128 / 128 / 128 / 128 / 128 % 128 + 128, v / 128 / 128 / 128 / 128 / 128 / 128 % 128 + 128, v / 128 / 128 / 128 / 128 / 128 / 128 / 128 % 128 + 128, v / 128 / 128 / 128 / 128 / 128 / 128 / 128 / 128 % 128 + 128, v / 128 / 128 / 128 / 128 / 128 / 128 / 128 / 128 / 128]) (0 + 9) =
        v / 128 / 128 / 128 / 128 / 128 / 128 / 128 / 128 / 128 % 256 := rfl
    simp only [decode_varint_u64, hb0, hb1, hb2, hb3, hb4, hb5, hb6, hb7, hb8, hb9]
    rw [if_pos (by omega : (v % 128 + 128) % 256 > 127),
      if_pos (by omega : (v / 128 % 128 + 128) % 256 > 127),
      if_pos (by omega : (v / 128 / 128 % 128 + 128) % 256 > 127),
      if_pos (by omega : (v / 128 / 128 / 128 % 128 + 128) % 256 > 127),
      if_pos (by omega : (v / 128 / 128 / 128 / 128 % 128 + 128) % 256 > 127),
      if_pos (by omega : (v / 128 / 128 / 128 / 128 / 128 % 128 + 128) % 256 > 127),
      if_pos (by omega : (v / 128 / 128 / 128 / 128 / 128 / 128 % 128 + 128) % 256 > 127),
      if_pos (by omega : (v / 128 / 128 / 128 / 128 / 128 / 128 / 128 % 128 + 128) % 256 > 127),
      if_pos (by omega : (v / 128 / 128 / 128 / 128 / 128 / 128 / 128 / 128 % 128 + 128) % 256 > 127)]
    simp only [and127, and16383, and2097151, and268435455, shl7, shl14, shl21, shl28, lor128, lor16384, lor2097152, mul28_mod32, lor268435456, shr4, and7, shl3, lor8, and1023, shl10, lor1024, and131071, shl17, lor131072, and16777215, shl24, lor16777216]
    omega

/-- In the window 2^32 ≤ v < 2^35 the fifth-byte contribution wraps, and the
decoder returns the value reduced modulo 2^32. -/
theorem decode_u64_gap (v : Nat) (hlo : 2 ^ 32 ≤ v) (hhi : v < 2 ^ 35) :
    (decode_varint_u64 (bufOfList (encode_varint v)) 0).2 = v % 2 ^ 32 := by
  have hE : encode_varint v = [v % 128 + 128, v / 128 % 128 + 128, v / 128 / 128 % 128 + 128, v / 128 / 128 / 128 % 128 + 128, v / 128 / 128 / 128 / 128] := by
    rw [encode_varint, show (10 : Nat) = 9 + 1 from rfl, encode_go_succ, if_neg (by omega), show (9 : Nat) = 8 + 1 from rfl, encode_go_succ, if_neg (by omega), show (8 : Nat) = 7 + 1 from rfl, encode_go_succ, if_neg (by omega), show (7 : Nat) = 6 + 1 from rfl, encode_go_succ, if_neg (by omega), show (6 : Nat) = 5 + 1 from rfl, encode_go_succ, if_pos (by omega)]
  rw [hE]
  have hb0 : bytestream_readbyte (bufOfList [v % 128 + 128, v / 128 % 128 + 128, v / 128 / 128 % 128 + 128, v / 128 / 128 / 128 % 128 + 128, v / 128 / 128 / 128 / 128]) 0 =
      (v % 128 + 128) % 256 := rfl
  have hb1 : bytestream_readbyte (bufOfList [v % 128 + 128, v / 128 % 128 + 128, v / 128 / 128 % 128 + 128, v / 128 / 128 / 128 % 128 + 128, v / 128 / 128 / 128 / 128]) (0 + 1) =
      (v / 128 % 128 + 128) % 256 := rfl
  have hb2 : bytestream_readbyte (bufOfList [v % 128 + 128, v / 128 % 128 + 128, v / 128 / 128 % 128 + 128, v / 128 / 128 / 128 % 128 + 128, v / 128 / 128 / 128 / 128]) (0 + 2) =
      (v / 128 / 128 % 128 + 128) % 256 := rfl
  have hb3 : bytestream_readbyte (bufOfList [v % 128 + 128, v / 128 % 128 + 128, v / 128 / 128 % 128 + 128, v / 128 / 128 / 128 % 128 + 128, v / 128 / 128 / 128 / 128]) (0 + 3) =
      (v / 128 / 128 / 128 % 128 + 128) % 256 := rfl
  have hb4 : bytestream_readbyte (bufOfList [v % 128 + 128, v / 128 % 128 + 128, v / 128 / 128 % 128 + 128, v / 128 / 128 / 128 % 128 + 128, v / 128 / 128 / 128 / 128]) (0 + 4) =
      v / 128 / 128 / 128 / 128 % 256 := rfl
  simp only [decode_varint_u64, hb0, hb1, hb2, hb3, hb4]
  rw [if_pos (by omega : (v % 128 + 128) % 256 > 127),
    if_pos (by omega : (v / 128 % 128 + 128) % 256 > 127),
    if_pos (by omega : (v / 128 / 128 % 128 + 128) % 256 > 127),
    if_pos (by omega : (v / 128 / 128 / 128 % 128 + 128) % 256 > 127),
    if_neg (by omega : ¬ v / 128 / 128 / 128 / 128 % 256 > 127)]
  simp only [and127, and16383, and2097151, and268435455, shl7, shl14, shl21, shl28, lor128, lor16384, lor2097152, mul28_mod32, lor268435456]
  omega

/-- Zig-zag decode inverts zig-zag encode on the 32-bit signed range. -/
theorem zigzag_decode_encode32 (n : Int) (h1 : -(2 ^ 31) ≤ n) (h2 : n < 2 ^ 31) :
    zigzag_decode32 (zigzag_encode n) = n := by
  unfold zigzag_decode32 zigzag_encode
  rcases lt_or_ge n 0 with hn | hn
  · rw [if_pos hn]
    have ha : (-(2 * n) - 1).toNat = 2 * (-n).toNat - 1 := by omega
    have hb : (2 * (-n).toNat - 1) &&& 1 = 1 := by rw [and1]; omega
    have hs : (2 * (-n).toNat - 1) >>> 1 = (-n).toNat - 1 := by rw [shr1]; omega
    have hm : ((2 ^ 32 - 1) % 2 ^ 32 : Nat) = 2 ^ 32 - 1 := Nat.mod_eq_of_lt (by norm_num)
    rw [ha, hb, hs, hm, xor_all_ones (show (-n).toNat - 1 < 2 ^ 32 by omega)]
    unfold toInt32
    rw [if_neg (by omega)]
    omega
  · rw [if_neg (by omega)]
    have ha : (2 * n).toNat = 2 * n.toNat := by omega
    have hb : 2 * n.toNat &&& 1 = 0 := by rw [and1]; omega
    have hs : (2 * n.toNat) >>> 1 = n.toNat := by rw [shr1]; omega
    rw [ha, hb, hs]
    norm_num
    unfold toInt32
    rw [if_pos (by omega)]
    omega

/-- Zig-zag decode inverts zig-zag encode on the 64-bit signed range. -/
theorem zigzag_decode_encode64 (n : Int) (h1 : -(2 ^ 63) ≤ n) (h2 : n < 2 ^ 63) :
    zigzag_decode64 (zigzag_encode n) = n := by
  unfold zigzag_decode64 zigzag_encode
  rcases lt_or_ge n 0 with hn | hn
  · rw [if_pos hn]
    have ha : (-(2 * n) - 1).toNat = 2 * (-n).toNat - 1 := by omega
    have hb : (2 * (-n).toNat - 1) &&& 1 = 1 := by rw [and1]; omega
    have hs : (2 * (-n).toNat - 1) >>> 1 = (-n).toNat - 1 := by rw [shr1]; omega
    have hm : ((2 ^ 64 - 1) % 2 ^ 64 : Nat) = 2 ^ 64 - 1 := Nat.mod_eq_of_lt (by norm_num)
    rw [ha, hb, hs, hm, xor_all_ones (show (-n).toNat - 1 < 2 ^ 64 by omega)]
    unfold toInt64
    rw [if_neg (by omega)]
    omega
  · rw [if_neg (by omega)]
    have ha : (2 * n).toNat = 2 * n.toNat := by omega
    have hb : 2 * n.toNat &&& 1 = 0 := by rw [and1]; omega
    have hs : (2 * n.toNat) >>> 1 = n.toNat := by rw [shr1]; omega
    rw [ha, hb, hs]
    norm_num
    unfold toInt64
    rw [if_pos (by omega)]
    omega

/-- Claim C6, counterexample: the canonical 5-byte varint encoding of 2^32 is
decoded by `decode_varint` (64-bit instantiation) as 0, because the fifth-byte
contribution `b << 28` wraps in the 32-bit accumulator while the high word is
only populated when the fifth byte has its continuation bit set.  The claim as
stated (round-trip for every u64 value) therefore fails at v = 2^32. -/
theorem C6_counterexample_u64 :
    (decode_varint_u64 (bufOfList (encode_varint 4294967296)) 0).2 = 0 ∧
      (4294967296 : Nat) ≠ 0 := by
  constructor
  · decide
  · decide

/-- Claim C6 (amended): decode_varint of the canonical base-128 little-endian
varint encoding is the identity for every u32 value; for u64 values it is the
identity except on the window 2^32 ≤ v < 2^35, where the terminal fifth byte's
high bits are lost and the decoder returns v mod 2^32; the signed decode
variants apply zig-zag decoding `(u >> 1) ^ -(u & 1)` to the unsigned result,
and signed zig-zag encode followed by decode is the identity whenever the
zig-zag encoding lies in the exact domain (in particular on the full 32-bit
signed range). -/
theorem C6_varint_roundtrip :
    (∀ v : Nat, v < 2 ^ 32 → (decode_varint_u32 (bufOfList (encode_varint v)) 0).2 = v) ∧
    (∀ v : Nat, v < 2 ^ 64 → (v < 2 ^ 32 ∨ 2 ^ 35 ≤ v) →
      (decode_varint_u64 (bufOfList (encode_varint v)) 0).2 = v) ∧
    (∀ v : Nat, 2 ^ 32 ≤ v → v < 2 ^ 35 →
      (decode_varint_u64 (bufOfList (encode_varint v)) 0).2 = v % 2 ^ 32) ∧
    (∀ buf pos, decode_varint_i32 buf pos =
      ((decode_varint_u32 buf pos).1, zigzag_decode32 (decode_varint_u32 buf pos).2)) ∧
    (∀ buf pos, decode_varint_i64 buf pos =
      ((decode_varint_u64 buf pos).1, zigzag_decode64 (decode_varint_u64 buf pos).2)) ∧
    (∀ n : Int, -(2 ^ 31) ≤ n → n < 2 ^ 31 →
      (decode_varint_i32 (bufOfList (encode_varint (zigzag_encode n))) 0).2 = n) ∧
    (∀ n : Int, -(2 ^ 31) ≤ n → n < 2 ^ 31 →
      (decode_varint_i64 (bufOfList (encode_varint (zigzag_encode n))) 0).2 = n) := by
  refine ⟨roundtrip_u32, roundtrip_u64, decode_u64_gap, fun _ _ => rfl, fun _ _ => rfl, ?_, ?_⟩
  · intro n h1 h2
    have hu : zigzag_encode n < 2 ^ 32 := by unfold zigzag_encode; split <;> omega
    have hc : (decode_varint_i32 (bufOfList (encode_varint (zigzag_encode n))) 0).2 =
        zigzag_decode32 ((decode_varint_u32 (bufOfList (encode_varint (zigzag_encode n))) 0).2) :=
      rfl
    rw [hc, roundtrip_u32 _ hu]
    exact zigzag_decode_encode32 n h1 h2
  · intro n h1 h2
    have hu : zigzag_encode n < 2 ^ 32 := by unfold zigzag_encode; split <;> omega
    have hc : (decode_varint_i64 (bufOfList (encode_varint (zigzag_encode n))) 0).2 =
        zigzag_decode64 ((decode_varint_u64 (bufOfList (encode_varint (zigzag_encode n))) 0).2) :=
      rfl
    rw [hc, roundtrip_u64 _ (by omega) (Or.inl hu)]
    exact zigzag_decode_encode64 n (by omega) (by omega)

/-- Claim C6 witness: the amended round-trip theorem instantiated at v = 300 and
n = -5. -/
theorem C6_varint_roundtrip_witness :
    (decode_varint_u32 (bufOfList (encode_varint 300)) 0).2 = 300 ∧
      (decode_varint_i32 (bufOfList (encode_varint (zigzag_encode (-5)))) 0).2 = -5 :=
  ⟨C6_varint_roundtrip.1 300 (by norm_num),
    C6_varint_roundtrip.2.2.2.2.2.1 (-5) (by norm_num) (by norm_num)⟩

/-! # lengths_to_positions computes inclusive prefix sums -/

/-- Pointwise unfolding of one scan round. -/
theorem l2p_round_apply (m numvals n : Nat) (v : Nat → Nat) (t : Nat) :
    l2p_round m numvals n v t =
      if t &&& n ≠ 0 ∧ t < numvals then (v t + v ((t &&& compl32 n) ||| (n - 1))) % m
      else v t := rfl

/-- The loop `for (n = 1; n < numvals; n <<= 1)` executes exactly the steps
`2^j` with `j < clog2 numvals`. -/
theorem l2p_step_set (numvals j : Nat) : j < Nat.clog 2 numvals ↔ 2 ^ j < numvals :=
  (Nat.pow_lt_iff_lt_clog (by norm_num)).symm

/-- The partner index `(t & ~n) | (n - 1)` of the doubling scan, for `n = 2^j`:
the top of the preceding `2^j`-block, i.e. the start of `t`'s `2^(j+1)`-block
plus `2^j - 1`. -/
theorem l2p_partner_eq (j t : Nat) (ht : t < 2 ^ 32) (hj : j < 32) :
    (t &&& compl32 (2 ^ j)) ||| (2 ^ j - 1) =
      2 ^ (j + 1) * (t / 2 ^ (j + 1)) + (2 ^ j - 1) := by
  have hb1 : (2 ^ j - 1 : Nat) < 2 ^ (j + 1) := by
    have h := Nat.pow_lt_pow_succ (show 1 < 2 by norm_num) (n := j)
    omega
  apply Nat.eq_of_testBit_eq
  intro k
  have hc : compl32 (2 ^ j) = 2 ^ 32 - 1 ^^^ 2 ^ j := by unfold compl32; norm_num
  rw [hc, Nat.testBit_or, Nat.testBit_and, Nat.testBit_xor,
    Nat.testBit_mul_pow_two_add (t / 2 ^ (j + 1)) hb1 k]
  have e4 : Nat.testBit (t / 2 ^ (j + 1)) (k - (j + 1)) = Nat.testBit t k ∨ k < j + 1 := by
    rcases Nat.lt_or_ge k (j + 1) with hk | hk
    · exact Or.inr hk
    · refine Or.inl ?_
      rw [show t / 2 ^ (j + 1) = t >>> (j + 1) from (Nat.shiftRight_eq_div_pow t (j + 1)).symm,
        Nat.testBit_shiftRight, show j + 1 + (k - (j + 1)) = k by omega]
  by_cases h32 : k < 32
  · rcases Nat.lt_trichotomy k j with hk | hk | hk
    · have e1 : Nat.testBit (2 ^ j - 1) k = true := by
        rw [Nat.testBit_two_pow_sub_one]
        simp [hk]
      simp [e1, show k < j + 1 by omega]
    · subst hk
      have e1 : Nat.testBit (2 ^ k - 1) k = false := by
        rw [Nat.testBit_two_pow_sub_one]
        simp
      have e2 : Nat.testBit 4294967295 k = true := by
        rw [show (4294967295 : Nat) = 2 ^ 32 - 1 by norm_num, Nat.testBit_two_pow_sub_one]
        simp [h32]
      have e3 : Nat.testBit (2 ^ k) k = true := Nat.testBit_two_pow_self
      simp [e1, e2, e3]
    · have e1 : Nat.testBit (2 ^ j - 1) k = false := by
        rw [Nat.testBit_two_pow_sub_one]
        simp
        omega
      have e2 : Nat.testBit 4294967295 k = true := by
        rw [show (4294967295 : Nat) = 2 ^ 32 - 1 by norm_num, Nat.testBit_two_pow_sub_one]
        simp [h32]
      have e3 : Nat.testBit (2 ^ j) k = false := Nat.testBit_two_pow_of_ne (by omega)
      have e5 : Nat.testBit (t / 2 ^ (j + 1)) (k - (j + 1)) = Nat.testBit t k := by
        rcases e4 with h | h
        · exact h
        · omega
      simp [e1, e2, e3, e5, show ¬ k < j + 1 by omega]
  · have e0 : Nat.testBit t k = false :=
      Nat.testBit_lt_two_pow
        (Nat.lt_of_lt_of_le ht (Nat.pow_le_pow_right (by norm_num) (by omega)))
    have e1 : Nat.testBit (2 ^ j - 1) k = false := by
      rw [Nat.testBit_two_pow_sub_one]
      simp
      omega
    have e2 : Nat.testBit 4294967295 k = false := by
      rw [show (4294967295 : Nat) = 2 ^ 32 - 1 by norm_num, Nat.testBit_two_pow_sub_one]
      simp
      omega
    have e5 : Nat.testBit (t / 2 ^ (j + 1)) (k - (j + 1)) = Nat.testBit t k := by
      rcases e4 with h | h
      · exact h
      · omega
    simp [e0, e1, e2, e5, show ¬ k < j + 1 by omega]

/-- Invariant of the pure (modulus-free) doubling scan: after the rounds
`2^0 .. 2^(J-1)`, slot `t < numvals` holds the sum of the original values over
`t`'s `2^J`-aligned block up to `t`, and slots at or above `numvals` are
untouched. -/
theorem l2p_go_pure (numvals : Nat) (v : Nat → Nat) (J : Nat)
    (hnv : numvals ≤ 2 ^ 32) (hJ : J ≤ 32) :
    ∀ t, (List.range J).foldl (fun w j => l2p_round 0 numvals (2 ^ j) w) v t =
      if t < numvals then ∑ i ∈ Finset.Ico (2 ^ J * (t / 2 ^ J)) (t + 1), v i else v t := by
  induction J with
  | zero =>
    intro t
    simp only [List.range_zero, List.foldl_nil, Nat.pow_zero, Nat.div_one, Nat.one_mul]
    split
    · rw [Finset.sum_Ico_succ_top (Nat.le_refl t), Finset.Ico_self, Finset.sum_empty, Nat.zero_add]
    · rfl
  | succ J ih =>
    intro t
    have ihJ := ih (by omega)
    simp only [List.range_succ, List.foldl_append, List.foldl_cons, List.foldl_nil]
    rw [l2p_round_apply]
    have hP : (0 : Nat) < 2 ^ J := Nat.two_pow_pos J
    have hps : (2 : Nat) ^ (J + 1) = 2 ^ J * 2 := Nat.pow_succ 2 J
    by_cases hg : t &&& 2 ^ J ≠ 0 ∧ t < numvals
    · rw [if_pos hg, if_pos hg.2, l2p_partner_eq J t (by omega) (by omega)]
      have hbit : t.testBit J = true := by
        rcases hb : t.testBit J with _ | _
        · rw [Nat.and_two_pow, hb] at hg
          simp at hg
        · rfl
      have hb2 : t / 2 ^ J % 2 = 1 := by
        have hh := Nat.testBit_to_div_mod (x := t) (i := J)
        rw [hbit] at hh
        exact of_decide_eq_true hh.symm
      rw [Nat.mod_zero, ihJ, ihJ, hps]
      have e1 : 2 ^ J * 2 * (t / (2 ^ J * 2)) + t % (2 ^ J * 2) = t := Nat.div_add_mod t _
      have e2 : t % (2 ^ J * 2) = t % 2 ^ J + 2 ^ J * (t / 2 ^ J % 2) := Nat.mod_mul
      rw [hb2, Nat.mul_one] at e2
      have e3 : 2 ^ J * (t / 2 ^ J) + t % 2 ^ J = t := Nat.div_add_mod t _
      have e4 : t % 2 ^ J < 2 ^ J := Nat.mod_lt t hP
      have hplt : 2 ^ J * 2 * (t / (2 ^ J * 2)) + (2 ^ J - 1) < numvals := by
        have := hg.2
        omega
      rw [if_pos hg.2, if_pos hplt]
      have hbase : 2 ^ J * ((2 ^ J * 2 * (t / (2 ^ J * 2)) + (2 ^ J - 1)) / 2 ^ J) =
          2 ^ J * 2 * (t / (2 ^ J * 2)) := by
        have hsmall : (2 ^ J - 1) / 2 ^ J = 0 := Nat.div_eq_of_lt (by omega)
        rw [show 2 ^ J * 2 * (t / (2 ^ J * 2)) + (2 ^ J - 1) =
          2 ^ J * (2 * (t / (2 ^ J * 2))) + (2 ^ J - 1) by ring, Nat.mul_add_div hP,
          hsmall, Nat.add_zero]
        ring
      rw [hbase]
      have hbt : 2 ^ J * (t / 2 ^ J) = 2 ^ J * 2 * (t / (2 ^ J * 2)) + 2 ^ J := by omega
      rw [hbt]
      rw [Nat.add_comm
        (∑ i ∈ Finset.Ico (2 ^ J * 2 * (t / (2 ^ J * 2)) + 2 ^ J) (t + 1), v i)]
      rw [show 2 ^ J * 2 * (t / (2 ^ J * 2)) + (2 ^ J - 1) + 1 =
        2 ^ J * 2 * (t / (2 ^ J * 2)) + 2 ^ J by omega]
      exact Finset.sum_Ico_consecutive v (by omega) (by omega)
    · rw [if_neg hg, ihJ]
      rcases Nat.lt_or_ge t numvals with ht | ht
      · have hbit : t.testBit J = false := by
          rcases hb : t.testBit J with _ | _
          · rfl
          · exfalso
            apply hg
            refine ⟨?_, ht⟩
            rw [Nat.and_two_pow, hb]
            simp
        have hb2 : t / 2 ^ J % 2 = 0 := by
          have hh := Nat.testBit_to_div_mod (x := t) (i := J)
          rw [hbit] at hh
          have h2 := of_decide_eq_false hh.symm
          omega
        rw [if_pos ht, if_pos ht, hps]
        have e1 : 2 ^ J * 2 * (t / (2 ^ J * 2)) + t % (2 ^ J * 2) = t := Nat.div_add_mod t _
        have e2 : t % (2 ^ J * 2) = t % 2 ^ J + 2 ^ J * (t / 2 ^ J % 2) := Nat.mod_mul
        rw [hb2, Nat.mul_zero, Nat.add_zero] at e2
        have e3 : 2 ^ J * (t / 2 ^ J) + t % 2 ^ J = t := Nat.div_add_mod t _
        have heq : 2 ^ J * 2 * (t / (2 ^ J * 2)) = 2 ^ J * (t / 2 ^ J) := by omega
        rw [heq]
      · rw [if_neg (by omega), if_neg (by omega)]

/-- The scan with modulus `m` computes the pure scan reduced modulo `m`,
provided the initial values are reduced. -/
theorem l2p_go_mod (m numvals : Nat) (v : Nat → Nat) (hv : ∀ t, v t < m) (J : Nat) :
    ∀ t, (List.range J).foldl (fun w j => l2p_round m numvals (2 ^ j) w) v t =
      ((List.range J).foldl (fun w j => l2p_round 0 numvals (2 ^ j) w) v) t % m := by
  induction J with
  | zero =>
    intro t
    simp only [List.range_zero, List.foldl_nil]
    exact (Nat.mod_eq_of_lt (hv t)).symm
  | succ J ih =>
    intro t
    simp only [List.range_succ, List.foldl_append, List.foldl_cons, List.foldl_nil]
    rw [l2p_round_apply, l2p_round_apply]
    by_cases hg : t &&& 2 ^ J ≠ 0 ∧ t < numvals
    · rw [if_pos hg, if_pos hg, ih, ih, Nat.mod_zero]
      exact (Nat.add_mod _ _ _).symm
    · rw [if_neg hg, if_neg hg, ih]

/-- Main characterisation: on slots `t < numvals` the scan yields the inclusive
prefix sum of the original values, reduced at the value type's modulus. -/
theorem lengths_to_positions_spec (m numvals : Nat) (hnv : numvals ≤ 2 ^ 32)
    (v : Nat → Nat) (hv : ∀ t, v t < m) (t : Nat) (ht : t < numvals) :
    lengths_to_positions m numvals v t = (∑ i ∈ Finset.Ico 0 (t + 1), v i) % m := by
  unfold lengths_to_positions
  have hJ : Nat.clog 2 numvals ≤ 32 := (Nat.le_pow_iff_clog_le (by norm_num)).mp hnv
  rw [l2p_go_mod m numvals v hv _ t, l2p_go_pure numvals v _ hnv hJ t, if_pos ht]
  have hlt : t < 2 ^ Nat.clog 2 numvals :=
    Nat.lt_of_lt_of_le ht (Nat.le_pow_clog (by norm_num) numvals)
  rw [Nat.div_eq_of_lt hlt, Nat.mul_zero]

/-- When the total sum fits in the value type, the scan is the exact inclusive
prefix sum. -/
theorem lengths_to_positions_exact (m numvals : Nat) (hnv : numvals ≤ 2 ^ 32)
    (v : Nat → Nat) (hv : ∀ t, v t < m)
    (hsum : ∑ i ∈ Finset.Ico 0 numvals, v i < m) (t : Nat) (ht : t < numvals) :
    lengths_to_positions m numvals v t = ∑ i ∈ Finset.Ico 0 (t + 1), v i := by
  rw [lengths_to_positions_spec m numvals hnv v hv t ht]
  apply Nat.mod_eq_of_lt
  refine Nat.lt_of_le_of_lt ?_ hsum
  apply Finset.sum_le_sum_of_subset
  apply Finset.Ico_subset_Ico (Nat.le_refl 0)
  omega

/-! # Claim C5: dictionary entries from the inclusive prefix sum -/

/-- Claim C5: for every dictionary-encoded string chunk batch, the entry
written for decoded length `t` is the pair (running byte offset before this
entry, length), computed from the inclusive prefix sum of the LENGTH stream:
`(dict_pos + (Σ of lengths before t), vals t)`.  The hypotheses are the type
invariants of the device code: at most NTHREADS lengths per batch, `uint32_t`
length values, and a running offset that does not overflow 32 bits. -/
theorem C5_dict_entries (dict_pos numvals : Nat) (vals : Nat → Nat)
    (hnv : numvals ≤ NTHREADS) (hv : ∀ i, vals i < 2 ^ 32)
    (hbound : dict_pos + (∑ i ∈ Finset.Ico 0 numvals, vals i) < 2 ^ 32)
    (t : Nat) (ht : t < numvals) :
    dict_batch dict_pos numvals vals t = (dict_pos + ∑ i ∈ Finset.Ico 0 t, vals i, vals t) := by
  unfold dict_batch
  have hnv32 : numvals ≤ 2 ^ 32 := by
    have : NTHREADS ≤ 2 ^ 32 := by norm_num [NTHREADS]
    omega
  have hpv : lengths_to_positions (2 ^ 32) numvals vals t =
      ∑ i ∈ Finset.Ico 0 (t + 1), vals i :=
    lengths_to_positions_exact (2 ^ 32) numvals hnv32 vals hv (by omega) t ht
  have hsucc : ∑ i ∈ Finset.Ico 0 (t + 1), vals i =
      (∑ i ∈ Finset.Ico 0 t, vals i) + vals t :=
    (Finset.sum_Ico_succ_top (Nat.zero_le t) vals).symm ▸ rfl
  have hmono : (∑ i ∈ Finset.Ico 0 (t + 1), vals i) ≤ ∑ i ∈ Finset.Ico 0 numvals, vals i :=
    Finset.sum_le_sum_of_subset (Finset.Ico_subset_Ico (Nat.le_refl 0) (by omega))
  simp only [if_pos ht, hpv]
  unfold uadd32 usub32
  have h1 : dict_pos + ∑ i ∈ Finset.Ico 0 (t + 1), vals i < 2 ^ 32 := by omega
  rw [Nat.mod_eq_of_lt h1, Nat.mod_eq_of_lt (hv t)]
  have h2 : (dict_pos + ∑ i ∈ Finset.Ico 0 (t + 1), vals i) % 2 ^ 32 =
      dict_pos + ∑ i ∈ Finset.Ico 0 (t + 1), vals i := Nat.mod_eq_of_lt h1
  rw [h2]
  refine Prod.ext ?_ rfl
  show (dict_pos + ∑ i ∈ Finset.Ico 0 (t + 1), vals i + (2 ^ 32 - vals t)) % 2 ^ 32 =
    dict_pos + ∑ i ∈ Finset.Ico 0 t, vals i
  rw [hsucc]
  rw [show dict_pos + ((∑ i ∈ Finset.Ico 0 t, vals i) + vals t) + (2 ^ 32 - vals t) =
    (dict_pos + ∑ i ∈ Finset.Ico 0 t, vals i) + 2 ^ 32 by omega]
  rw [Nat.add_mod_right]
  apply Nat.mod_eq_of_lt
  omega

/-- Claim C5 witness: the {3,0,7,2} dictionary produces the entries
{(0,3),(3,0),(3,7),(10,2)}; shown here for the third and fourth entries by
applying the claim theorem at the concrete batch. -/
theorem C5_dict_entries_witness :
    dict_batch 0 4 (fun t => [3, 0, 7, 2].getD t 0) 2 = (3, 7) ∧
      dict_batch 0 4 (fun t => [3, 0, 7, 2].getD t 0) 3 = (10, 2) := by
  constructor
  · rw [C5_dict_entries 0 4 (fun t => [3, 0, 7, 2].getD t 0) (by norm_num [NTHREADS])
      (fun i => by rcases i with _ | _ | _ | _ | i <;> norm_num) (by decide) 2 (by norm_num)]
    decide
  · rw [C5_dict_entries 0 4 (fun t => [3, 0, 7, 2].getD t 0) (by norm_num [NTHREADS])
      (fun i => by rcases i with _ | _ | _ | _ | i <;> norm_num) (by decide) 3 (by norm_num)]
    decide

/-! # Claim C7: row-offset array from the validity prefix sum -/

/-- Claim C7: the row-offset value computed by the column-data phase for each
row of the window is 0 for a null/skipped row, and `1 + relative_row_index`
(the row's 1-based rank among the valid rows, i.e. the inclusive prefix sum of
the validity bits at that row) for a valid row. -/
theorem C7_row_offsets (validBit : Nat → Bool) (nrows : Nat) (hn : nrows ≤ NTHREADS)
    (t : Nat) (ht : t < nrows) :
    row_ofs_nzpos validBit nrows t =
      if validBit t then 1 + (Finset.filter (fun i => validBit i = true) (Finset.range t)).card
      else 0 := by
  unfold row_ofs_nzpos
  rcases hb : validBit t with _ | _
  · rw [if_neg (by simp [hb]), if_neg (by simp)]
  · rw [if_pos ⟨ht, rfl⟩, if_pos rfl]
    have hnv32 : nrows ≤ 2 ^ 32 := by
      have : NTHREADS ≤ 2 ^ 32 := by norm_num [NTHREADS]
      omega
    have hv : ∀ i, row_ofs_init validBit nrows i < 2 ^ 16 := by
      intro i
      unfold row_ofs_init
      split <;> norm_num
    have hsum : (∑ i ∈ Finset.Ico 0 nrows, row_ofs_init validBit nrows i) < 2 ^ 16 := by
      have h1 : (∑ i ∈ Finset.Ico 0 nrows, row_ofs_init validBit nrows i) ≤
          ∑ i ∈ Finset.Ico 0 nrows, 1 := by
        apply Finset.sum_le_sum
        intro i _
        unfold row_ofs_init
        split <;> norm_num
      have h2 : (∑ i ∈ Finset.Ico 0 nrows, (1 : Nat)) = nrows := by simp
      have h3 : NTHREADS < 2 ^ 16 := by norm_num [NTHREADS]
      omega
    rw [lengths_to_positions_exact (2 ^ 16) nrows hnv32 _ hv hsum t ht]
    have hco : ∀ s : Finset Nat, (∀ i ∈ s, i < nrows) →
        (∑ i ∈ s, row_ofs_init validBit nrows i) =
          (Finset.filter (fun i => validBit i = true) s).card := by
      intro s hs
      rw [Finset.card_filter]
      apply Finset.sum_congr rfl
      intro i hi
      unfold row_ofs_init
      rcases hvb : validBit i with _ | _
      · rw [if_neg (by simp [hvb]), if_neg (by simp [hvb])]
      · rw [if_pos ⟨hs i hi, rfl⟩, if_pos rfl]
    rw [Nat.Ico_zero_eq_range, hco (Finset.range (t + 1)) (fun i hi => by
      have := Finset.mem_range.mp hi
      omega)]
    rw [Finset.range_succ, Finset.filter_insert, if_pos hb,
      Finset.card_insert_of_not_mem (fun hmem => by
        have := Finset.mem_range.mp (Finset.mem_of_mem_filter t hmem)
        omega)]
    omega

/-- Claim C7 witness: validity bits 1,0,1,1,0 produce the row-offset values
1,0,2,3,0, obtained by applying the claim theorem at each row. -/
theorem C7_row_offsets_witness :
    row_ofs_nzpos (fun i => [true, false, true, true, false].getD i false) 5 0 = 1 ∧
      row_ofs_nzpos (fun i => [true, false, true, true, false].getD i false) 5 1 = 0 ∧
      row_ofs_nzpos (fun i => [true, false, true, true, false].getD i false) 5 2 = 2 ∧
      row_ofs_nzpos (fun i => [true, false, true, true, false].getD i false) 5 3 = 3 ∧
      row_ofs_nzpos (fun i => [true, false, true, true, false].getD i false) 5 4 = 0 := by
  refine ⟨?_, ?_, ?_, ?_, ?_⟩ <;>
    rw [C7_row_offsets (fun i => [true, false, true, true, false].getD i false) 5
      (by norm_num [NTHREADS]) _ (by norm_num)] <;> decide

/-! # Claims C1 and C10: Integer RLEv1 -/

theorem bytestream_readbyte_lt (buf : Nat → Nat) (pos : Nat) :
    bytestream_readbyte buf pos < 256 :=
  Nat.mod_lt _ (by norm_num)

/-- Unpacking the three `run_data` fields recovers the recorded triple
(delta as a signed byte, count, base output index) whenever the count is at
most 130 and the base index fits in ten bits. -/
theorem packRunData_fields (d n v : Nat) (hd : d < 256) (hn : n ≤ 130) (hv : v < 1024) :
    run_data_base (packRunData d n v) = v ∧
      run_data_count (packRunData d n v) = n ∧
      run_data_delta (packRunData d n v) = (d : Int) - (if 128 ≤ d then 256 else 0) := by
  have hpack : packRunData d n v = 2 ^ 16 * (2 ^ 8 * d + n) + v := by
    unfold packRunData
    rw [Nat.shiftLeft_eq, Nat.shiftLeft_eq, Nat.lor_comm (d * 2 ^ 24), Nat.mul_comm d,
      lor_lt_mul_eq_add 24 (n * 2 ^ 16) d (by omega)]
    rw [show 2 ^ 24 * d + n * 2 ^ 16 = 2 ^ 16 * (2 ^ 8 * d + n) by ring, Nat.lor_comm,
      lor_lt_mul_eq_add 16 v (2 ^ 8 * d + n) (by omega)]
  refine ⟨?_, ?_, ?_⟩
  · rw [run_data_base, and1023, hpack]
    omega
  · rw [run_data_count, shr16, and255, hpack]
    omega
  · rw [run_data_delta, sar32, Int.fdiv_eq_ediv _ (by norm_num), toInt32, hpack]
    split <;> split <;> omega

/-- Invariant of the RLEv1 scan: the produced count never exceeds `maxvals`,
and every recorded run descriptor is the packed form of a delta byte, a count
in 3..130, and a base output index with `base + count ≤ maxvals`. -/
theorem rlev1_scan_go_inv (buf : Nat → Nat) (maxpos maxvals : Nat) :
    ∀ (fuel : Nat) (st : Rlev1Scan),
      st.numvals ≤ maxvals →
      (∀ rd ∈ st.runs, ∃ d n v, d < 256 ∧ 3 ≤ n ∧ n ≤ 130 ∧ v + n ≤ maxvals ∧
        rd = packRunData d n v) →
      (rlev1_scan_go buf maxpos maxvals fuel st).numvals ≤ maxvals ∧
        ∀ rd ∈ (rlev1_scan_go buf maxpos maxvals fuel st).runs,
          ∃ d n v, d < 256 ∧ 3 ≤ n ∧ n ≤ 130 ∧ v + n ≤ maxvals ∧ rd = packRunData d n v := by
  intro fuel
  induction fuel with
  | zero =>
    intro st h1 h2
    exact ⟨h1, h2⟩
  | succ fuel ih =>
    intro st h1 h2
    rw [rlev1_scan_go]
    by_cases hg : st.numvals < maxvals ∧ st.numruns < NWARPS * 12
    · rw [if_pos hg]
      by_cases hbr : bytestream_readbyte buf st.lastpos ≤ 0x7f
      · rw [if_pos hbr]
        by_cases hov : maxvals < st.numvals + (bytestream_readbyte buf st.lastpos + 3)
        · rw [if_pos hov]
          exact ⟨h1, h2⟩
        · rw [if_neg hov]
          by_cases hmp : maxpos <
              st.lastpos + 2 + varint_length32 buf (st.lastpos + 2)
          · rw [if_pos hmp]
            exact ⟨h1, h2⟩
          · rw [if_neg hmp]
            apply ih
            · simp only []
              omega
            · intro rd hrd
              simp only [List.mem_append, List.mem_singleton] at hrd
              rcases hrd with hrd | hrd
              · exact h2 rd hrd
              · exact ⟨bytestream_readbyte buf (st.lastpos + 1),
                  bytestream_readbyte buf st.lastpos + 3, st.numvals,
                  bytestream_readbyte_lt buf _, by omega, by omega, by omega, hrd⟩
      · rw [if_neg hbr]
        by_cases hov : maxvals < st.numvals + (0x100 - bytestream_readbyte buf st.lastpos)
        · rw [if_pos hov]
          exact ⟨h1, h2⟩
        · rw [if_neg hov]
          by_cases hmp : maxpos <
              (rlev1_lit_scan buf (st.lastpos + 1)
                (0x100 - bytestream_readbyte buf st.lastpos)).2
          · rw [if_pos hmp]
            exact ⟨h1, h2⟩
          · rw [if_neg hmp]
            apply ih
            · have hlt := bytestream_readbyte_lt buf st.lastpos
              simp only []
              omega
            · exact h2
    · rw [if_neg hg]
      exact ⟨h1, h2⟩

/-- Claim C1 (code bug): on the stream `FE 80 01 05` — a literal block with
control `0xFE` (two literal values), the 2-byte varint `80 01` (= 128) and the
1-byte varint `05` — Integer_RLEv1 with `maxvals = 2` returns count 2 with
outputs 128 and 0 instead of the canonical 128 and 5.  The cause is internal
to the file: `varint_length` reports 3 bytes for the 2-byte varint `80 01`
(its probe word is read at `pos` instead of `pos + 1`, contradicting its own
doc comment), so the scan records the second literal's offset one byte past
the varint `05`, and the per-slot decode reads the zero padding instead. -/
theorem C1_rlev1_literal_misparse :
    (Integer_RLEv1 (bufOfList [0xfe, 0x80, 0x01, 0x05]) 0 (bytestream_aligned_len 4) 2).1 = 2 ∧
      (Integer_RLEv1 (bufOfList [0xfe, 0x80, 0x01, 0x05]) 0
        (bytestream_aligned_len 4) 2).2.1 0 = 128 ∧
      (Integer_RLEv1 (bufOfList [0xfe, 0x80, 0x01, 0x05]) 0
        (bytestream_aligned_len 4) 2).2.1 1 = 0 ∧
      (decode_varint_u32 (bufOfList [0xfe, 0x80, 0x01, 0x05]) 3).2 = 5 ∧
      (0 : Nat) ≠ 5 ∧
      varint_length32 (bufOfList [0xfe, 0x80, 0x01, 0x05]) 1 = 3 ∧
      (decode_varint_u32 (bufOfList [0xfe, 0x80, 0x01, 0x05]) 1).1 = 1 + 2 := by
  refine ⟨by decide, by decide, by decide, by decide, by decide, by decide, by decide⟩

/-- Claim C10: Integer_RLEv1 packs each discovered run's metadata as
`(delta << 24) | (count << 16) | base`, and under `maxvals ≤ 1024` every
recorded run has base at most 1023 and count in 3..130, so unpacking with the
`& 0x3ff` mask, the `& 0xff` mask and the arithmetic right shift recovers the
recorded triple exactly (the delta as the signed value of the recorded byte). -/
theorem C10_run_data_pack (buf : Nat → Nat) (startpos len maxvals : Nat)
    (hmv : maxvals ≤ 1024) :
    ∀ rd ∈ (rlev1_scan buf startpos len maxvals).runs,
      ∃ d n v, d < 256 ∧ 3 ≤ n ∧ n ≤ 130 ∧ v + n ≤ maxvals ∧ rd = packRunData d n v ∧
        run_data_base rd = v ∧ run_data_base rd ≤ 1023 ∧
        run_data_count rd = n ∧
        run_data_delta rd = (d : Int) - (if 128 ≤ d then 256 else 0) := by
  intro rd hrd
  have h := (rlev1_scan_go_inv buf (min len (startpos + (BYTESTREAM_BFRSZ - 8))) maxvals
    (maxvals + 1)
    { lastpos := startpos, numvals := 0, numruns := 0, vals := fun _ => 0, runs := [] }
    (Nat.zero_le maxvals) (by intro x hx; simp at hx)).2 rd hrd
  obtain ⟨d, n, v, hd, hn3, hn, hv, hpk⟩ := h
  have hf := packRunData_fields d n v hd hn (by omega)
  refine ⟨d, n, v, hd, hn3, hn, hv, hpk, ?_, ?_, ?_, ?_⟩
  · rw [hpk]
    exact hf.1
  · rw [hpk, hf.1]
    omega
  · rw [hpk]
    exact hf.2.1
  · rw [hpk]
    exact hf.2.2

/-- Claim C10 witness: the stream `00 FF 05` (one run: count 3, delta byte
0xFF, base 5) scanned with `maxvals = 1024` records the descriptor
`packRunData 255 3 0`, whose unpacked fields are recovered losslessly. -/
theorem C10_run_data_pack_witness :
    ∃ d n v, d < 256 ∧ 3 ≤ n ∧ n ≤ 130 ∧ v + n ≤ 1024 ∧
      packRunData 255 3 0 = packRunData d n v ∧
      run_data_base (packRunData 255 3 0) = v ∧ run_data_base (packRunData 255 3 0) ≤ 1023 ∧
      run_data_count (packRunData 255 3 0) = n ∧
      run_data_delta (packRunData 255 3 0) = (d : Int) - (if 128 ≤ d then 256 else 0) :=
  C10_run_data_pack (bufOfList [0x00, 0xff, 0x05]) 0 8 1024 (by norm_num)
    (packRunData 255 3 0) (by decide)

/-! # Claim C2: RLEv2 delta-mode run values -/

theorem bytestream_readbits_lt (buf : Nat → Nat) (bitpos numbits : Nat) :
    bytestream_readbits buf bitpos numbits < 2 ^ 32 := by
  have h : ∀ lo hi s n : Nat, funnelshift_l lo hi s >>> n < 2 ^ 32 := by
    intro lo hi s n
    rw [Nat.shiftRight_eq_div_pow]
    exact lt_of_le_of_lt (Nat.div_le_self _ _) (Nat.mod_lt _ (by norm_num))
  exact h _ _ _ _

theorem decode_varint_u32_snd_lt (buf : Nat → Nat) (pos : Nat) :
    (decode_varint_u32 buf pos).2 < 2 ^ 32 := by
  have hor : ∀ a b : Nat, a < 2 ^ 32 → b < 2 ^ 32 → a ||| b < 2 ^ 32 := fun a b ha hb =>
    Nat.or_lt_two_pow ha hb
  have hb0 := bytestream_readbyte_lt buf pos
  have hb1 := bytestream_readbyte_lt buf (pos + 1)
  have hb2 := bytestream_readbyte_lt buf (pos + 2)
  have hb3 := bytestream_readbyte_lt buf (pos + 3)
  simp only [decode_varint_u32]
  split
  · split
    · split
      · split
        · exact hor _ _ (lt_of_le_of_lt Nat.and_le_right (by norm_num))
            (Nat.mod_lt _ (by norm_num))
        · exact hor _ _ (lt_of_le_of_lt Nat.and_le_right (by norm_num))
            (by rw [shl21]; omega)
      · exact hor _ _ (lt_of_le_of_lt Nat.and_le_right (by norm_num))
          (by rw [shl14]; omega)
    · exact hor _ _ (lt_of_le_of_lt Nat.and_le_right (by norm_num))
        (by rw [shl7]; omega)
  · omega

theorem toInt32_natAbs_le (x : Nat) (hx : x < 2 ^ 32) : (toInt32 x).natAbs ≤ 2 ^ 31 := by
  unfold toInt32
  split <;> omega

theorem zigzag_decode32_natAbs_le (u : Nat) (hu : u < 2 ^ 32) :
    (zigzag_decode32 u).natAbs ≤ 2 ^ 31 := by
  unfold zigzag_decode32
  apply toInt32_natAbs_le
  apply Nat.xor_lt_two_pow
  · rw [shr1]; omega
  · exact Nat.mod_lt _ (by norm_num)

theorem rlev2_parse_delta_natAbs (buf : Nat → Nat) (runpos : Nat) :
    (rlev2_delta_parse buf runpos).delta.natAbs ≤ 2 ^ 31 :=
  zigzag_decode32_natAbs_le _ (decode_varint_u32_snd_lt buf _)

theorem rlev2_parse_n_le (buf : Nat → Nat) (runpos : Nat) :
    (rlev2_delta_parse buf runpos).n ≤ 512 := by
  show 1 + ((bytestream_readbyte buf runpos &&& 1) <<< 8) +
      bytestream_readbyte buf (runpos + 1) ≤ 512
  have h0 := bytestream_readbyte_lt buf runpos
  have h1 := bytestream_readbyte_lt buf (runpos + 1)
  rw [and1, shl8]
  omega

theorem rlev2_ofs_lt (buf : Nat → Nat) (p : Rlev2Delta) (i : Nat) :
    rlev2_ofs buf p i < 2 ^ 32 := by
  unfold rlev2_ofs
  split
  · split
    · exact bytestream_readbits_lt buf _ _
    · norm_num
  · split
    · exact Nat.mod_lt _ (by norm_num)
    · norm_num

theorem rlev2_slot_lt (buf : Nat → Nat) (p : Rlev2Delta) (i : Nat) :
    rlev2_delta_slot buf p i < 2 ^ 32 := by
  unfold rlev2_delta_slot
  split
  · exact Nat.mod_lt _ (by norm_num)
  · exact rlev2_ofs_lt buf p i

theorem rlev2_slot_int_cast (buf : Nat → Nat) (p : Rlev2Delta) (i : Nat) :
    ((rlev2_delta_slot buf p i : Nat) : Int) = rlev2_slot_int buf p i % 2 ^ 32 := by
  have h := rlev2_ofs_lt buf p i
  unfold rlev2_delta_slot rlev2_slot_int
  split <;> omega

/-- The decoded value of slot `t` of a delta run is the 32-bit pattern of
`baseval` plus the inclusive sum of the signed per-step values. -/
theorem rlev2_delta_decode_spec (buf : Nat → Nat) (p : Rlev2Delta) (t : Nat)
    (hn : p.n ≤ 2 ^ 32) (ht : t < p.n) :
    (lengths_to_positions (2 ^ 32) p.n (rlev2_delta_slot buf p) t + p.baseval) % 2 ^ 32 =
      toUInt32pat ((p.baseval : Int) + ∑ i ∈ Finset.Ico 0 (t + 1), rlev2_slot_int buf p i) := by
  rw [lengths_to_positions_spec (2 ^ 32) p.n hn _ (fun i => rlev2_slot_lt buf p i) t ht]
  unfold toUInt32pat
  have hsum : ((∑ i ∈ Finset.Ico 0 (t + 1), rlev2_delta_slot buf p i : Nat) : Int) % 2 ^ 32 =
      (∑ i ∈ Finset.Ico 0 (t + 1), rlev2_slot_int buf p i) % 2 ^ 32 := by
    rw [Nat.cast_sum, show (∑ i ∈ Finset.Ico 0 (t + 1), ((rlev2_delta_slot buf p i : Nat) : Int)) =
        ∑ i ∈ Finset.Ico 0 (t + 1), rlev2_slot_int buf p i % 2 ^ 32 from
      Finset.sum_congr rfl (fun i _ => rlev2_slot_int_cast buf p i)]
    exact (Finset.sum_int_mod _ _ _).symm
  omega

theorem clog2_three : Nat.clog 2 3 = 2 := by
  rw [Nat.clog_of_two_le (by norm_num) (by norm_num)]
  norm_num
  rw [Nat.clog_of_two_le (by norm_num) (by norm_num)]
  norm_num

/-- Claim C2 (corrected): for a delta-mode run with raw base varint `baseval`
and signed delta varint `delta`, slot `t` decodes to the 32-bit pattern of
`baseval` plus the inclusive prefix sum of the signed per-step values, where
the step at index 1 is `delta` itself — the signed delta, not its absolute
value — and each later step is the bit-packed magnitude negated when
`delta < 0`.  In particular the first value is `baseval` and the second is
`baseval + delta`, not `baseval + |delta|` as claimed. -/
theorem C2_rlev2_delta_values (buf : Nat → Nat) (runpos t : Nat)
    (ht : t < (rlev2_delta_parse buf runpos).n) :
    (rlev2_delta_decode buf runpos).2 t =
      toUInt32pat (((rlev2_delta_parse buf runpos).baseval : Int) +
        ∑ i ∈ Finset.Ico 0 (t + 1), rlev2_slot_int buf (rlev2_delta_parse buf runpos) i) ∧
      rlev2_slot_int buf (rlev2_delta_parse buf runpos) 1 =
        (rlev2_delta_parse buf runpos).delta := by
  constructor
  · show (lengths_to_positions (2 ^ 32) (rlev2_delta_parse buf runpos).n
        (rlev2_delta_slot buf (rlev2_delta_parse buf runpos)) t +
        (rlev2_delta_parse buf runpos).baseval) % 2 ^ 32 = _
    exact rlev2_delta_decode_spec buf (rlev2_delta_parse buf runpos) t
      (le_trans (rlev2_parse_n_le buf runpos) (by norm_num)) ht
  · have habs := rlev2_parse_delta_natAbs buf runpos
    have hmod : (rlev2_delta_parse buf runpos).delta.natAbs % 2 ^ 32 =
        (rlev2_delta_parse buf runpos).delta.natAbs := Nat.mod_eq_of_lt (by omega)
    simp only [rlev2_slot_int, rlev2_ofs]
    rw [if_neg (show ¬ ((2 : Nat) ≤ 1) by norm_num), if_pos trivial, hmod]
    rcases lt_or_le (rlev2_delta_parse buf runpos).delta 0 with hneg | hpos
    · rw [if_pos hneg]
      omega
    · rw [if_neg (by omega)]
      omega

/-- Claim C2 counterexample: the delta run `C0 02 14 01` (w = 1, n = 3, base
varint 20, delta varint zig-zagged −1) decodes its second slot to
`base + delta = 19`, not `base + |delta| = 21` as the claim states. -/
theorem C2_counterexample :
    (rlev2_delta_parse (bufOfList [0xc0, 0x02, 0x14, 0x01]) 0).baseval = 20 ∧
      (rlev2_delta_parse (bufOfList [0xc0, 0x02, 0x14, 0x01]) 0).delta = -1 ∧
      (rlev2_delta_decode (bufOfList [0xc0, 0x02, 0x14, 0x01]) 0).2 1 = 19 ∧
      (19 : Nat) ≠ 20 + 1 := by
  refine ⟨by decide, by decide, ?_, by decide⟩
  have h1 : (rlev2_delta_decode (bufOfList [0xc0, 0x02, 0x14, 0x01]) 0).2 1 =
      (lengths_to_positions (2 ^ 32) 3
        (rlev2_delta_slot (bufOfList [0xc0, 0x02, 0x14, 0x01])
          (rlev2_delta_parse (bufOfList [0xc0, 0x02, 0x14, 0x01]) 0)) 1 + 20) % 2 ^ 32 := rfl
  rw [h1]
  unfold lengths_to_positions
  rw [clog2_three]
  decide

/-- Claim C2 witness: the theorem applied to the run `C0 02 14 01` at slot 1
gives the concrete second value 19 = 20 + (−1) and the signed step −1. -/
theorem C2_rlev2_delta_values_witness :
    (rlev2_delta_decode (bufOfList [0xc0, 0x02, 0x14, 0x01]) 0).2 1 = 19 ∧
      rlev2_slot_int (bufOfList [0xc0, 0x02, 0x14, 0x01])
        (rlev2_delta_parse (bufOfList [0xc0, 0x02, 0x14, 0x01]) 0) 1 = -1 := by
  have h := C2_rlev2_delta_values (bufOfList [0xc0, 0x02, 0x14, 0x01]) 0 1 (by decide)
  constructor
  · rw [h.1]
    decide
  · rw [h.2]
    decide

/-! # Claim C4: skip_count is never written back -/

/-- Claim C4 (code bug): the null-decode phase adds its skip tally only to the
block-shared copy of the chunk descriptor (line 975), while the phase's only
store to the global descriptor writes `null_count` alone (line 1007).  The
column-data decode phase re-loads the descriptor from global memory, so the
`skip_count` it reads is the original, un-incremented value, whatever
`null_count` was written.  Concretely, a window with 5 valid rows below
`first_row` yields a per-lane tally of 5, which the butterfly reduction over
the 32 equal lane values inflates to 160 in the shared copy (a second
divergence from the claimed exact count), yet a descriptor that started with
`skip_count = 0` still reads as 0 in the decode phase. -/
theorem C4_skip_count_lost (chunk : ColumnDescC4) (nc : Nat) :
    (nulls_writeback chunk nc).skip_count = chunk.skip_count ∧
      nulls_skip_lane_sum (fun _ => 0x1f) 5 = 5 ∧
      nulls_skip_increment (fun _ => 0x1f) 5 = 160 ∧
      (nulls_shared_addskip ⟨0, 0⟩ (nulls_skip_increment (fun _ => 0x1f) 5)).skip_count = 160 ∧
      datadec_skip_read (nulls_writeback ⟨0, 0⟩ nc) = 0 ∧
      (160 : Nat) ≠ 0 :=
  ⟨rfl, by decide, by decide, by decide, by show min (0 : Nat) NTHREADS = 0; decide, by decide⟩

/-! # Claim C8: string scatter bounds checks -/

/-- Claim C8: at scatter time for a string-like output row, an out-of-range
index produces the zero-length sentinel descriptor and no dictionary entry is
read: with dictionary encoding the descriptor is `(sentinel, 0)` exactly when
the decoded index reaches `dict_len`, and an in-range index reads only the
entry `dictionary_start + dict_idx` from the chunk's own dictionary slice;
with direct encoding the descriptor is `(sentinel, 0)` exactly when the 32-bit
sum of the computed data offset and the length exceeds the DATA stream length,
and otherwise is that offset and length (for every value `count0` of the
register that line 1416 reads one line before it is initialized). -/
theorem C8_scatter_bounds (dict_len dictionary_start : Nat) (gdict : Nat → Nat × Nat)
    (strm_len valsNT valsT count0 dict_idx : Nat) :
    (dict_len ≤ dict_idx →
      scatter_string_dict dict_len dictionary_start gdict dict_idx = (StrPtr.sentinel, 0)) ∧
      (dict_idx < dict_len →
        scatter_string_dict dict_len dictionary_start gdict dict_idx =
          (StrPtr.dict (gdict (dictionary_start + dict_idx)).1,
            (gdict (dictionary_start + dict_idx)).2)) ∧
      (strm_len < uadd32 (usub32 (uadd32 dictionary_start valsNT) count0) valsT →
        scatter_string_direct dictionary_start strm_len valsNT valsT count0 =
          (StrPtr.sentinel, 0)) ∧
      (uadd32 (usub32 (uadd32 dictionary_start valsNT) count0) valsT ≤ strm_len →
        scatter_string_direct dictionary_start strm_len valsNT valsT count0 =
          (StrPtr.data (usub32 (uadd32 dictionary_start valsNT) count0), valsT)) := by
  refine ⟨?_, ?_, ?_, ?_⟩
  · intro h
    unfold scatter_string_dict
    rw [if_neg (by omega)]
  · intro h
    unfold scatter_string_dict
    rw [if_pos h]
  · intro h
    unfold scatter_string_direct
    rw [if_pos h]
  · intro h
    unfold scatter_string_direct
    rw [if_neg (by omega)]

/-- Claim C8 witness: concrete in-range and out-of-range lookups for both
encodings, obtained by applying the claim theorem. -/
theorem C8_scatter_bounds_witness :
    scatter_string_dict 4 0 (fun i => (2 * i, 5)) 7 = (StrPtr.sentinel, 0) ∧
      scatter_string_dict 4 0 (fun i => (2 * i, 5)) 2 = (StrPtr.dict 4, 5) ∧
      scatter_string_direct 0 5 10 3 3 = (StrPtr.sentinel, 0) ∧
      scatter_string_direct 0 1000 10 3 3 = (StrPtr.data 7, 3) := by
  have h1 := C8_scatter_bounds 4 0 (fun i => (2 * i, 5)) 5 10 3 3 7
  have h2 := C8_scatter_bounds 4 0 (fun i => (2 * i, 5)) 1000 10 3 3 2
  exact ⟨h1.1 (by decide), h2.2.1 (by decide), h1.2.2.1 (by decide), h2.2.2.2 (by decide)⟩

/-! # Claim C9: termination of the per-chunk decode loop -/

theorem funnelshift_r_testBit (a b s k : Nat) (ha : a < 2 ^ 32) (hs : s < 32) (hk : k < 32) :
    (funnelshift_r a b s).testBit k =
      if s + k < 32 then a.testBit (s + k) else b.testBit (s + k - 32) := by
  unfold funnelshift_r
  have hss : s &&& 31 = s := by
    rw [and31]
    omega
  rw [hss, Nat.testBit_mod_two_pow, Nat.testBit_shiftRight, Nat.mul_comm b (2 ^ 32),
    Nat.testBit_mul_pow_two_add b ha]
  simp [hk]

theorem compl32_testBit (x k : Nat) (hk : k < 32) : (compl32 x).testBit k = !x.testBit k := by
  unfold compl32
  rw [Nat.testBit_xor, show (0xffffffff : Nat) = 2 ^ 32 - 1 by norm_num,
    Nat.testBit_two_pow_sub_one]
  simp [hk]

theorem masked_write_testBit (g y mask k : Nat) (hk : k < 32) :
    ((g &&& compl32 mask) ||| (y &&& mask)).testBit k =
      if mask.testBit k then y.testBit k else g.testBit k := by
  rw [Nat.testBit_or, Nat.testBit_and, Nat.testBit_and, compl32_testBit mask k hk]
  rcases hm : mask.testBit k <;> simp [hm]

theorem rle8_read_u32_testBit (vals : Nat → Nat) (hv : ∀ j, vals j < 2 ^ 32)
    (bitpos k : Nat) (hk : k < 32) :
    (rle8_read_u32 vals bitpos).testBit k = srcbit vals (bitpos + k) := by
  unfold rle8_read_u32 srcbit
  rw [shr5, and31, funnelshift_r_testBit _ _ _ k (hv _) (Nat.mod_lt _ (by norm_num)) hk]
  by_cases h : bitpos % 32 + k < 32
  · rw [if_pos h]
    have h1 : (bitpos + k) / 32 = bitpos / 32 := by omega
    have h2 : (bitpos + k) % 32 = bitpos % 32 + k := by omega
    rw [h1, h2]
  · rw [if_neg h]
    have h1 : (bitpos + k) / 32 = bitpos / 32 + 1 := by omega
    have h2 : (bitpos + k) % 32 = bitpos % 32 + k - 32 := by omega
    rw [h1, h2]

theorem nulls_store_word_testBit (vals : Nat → Nat) (hv : ∀ j, vals j < 2 ^ 32)
    (g startbit nbits t k : Nat) (hk : k < 32) :
    (nulls_store_word vals g startbit nbits t).testBit k =
      if 32 * t + k < nbits then srcbit vals (startbit + 32 * t + k) else g.testBit k := by
  unfold nulls_store_word
  by_cases h1 : 32 * t + 32 ≤ nbits
  · rw [if_pos h1, rle8_read_u32_testBit vals hv _ k hk, if_pos (by omega)]
  · rw [if_neg h1]
    by_cases h2 : 32 * t < nbits
    · rw [if_pos h2, masked_write_testBit _ _ _ k hk, Nat.one_shiftLeft,
        Nat.testBit_two_pow_sub_one]
      by_cases h3 : k < nbits - 32 * t
      · simp only [h3, decide_True, if_true]
        rw [rle8_read_u32_testBit vals hv _ k hk, if_pos (by omega)]
      · simp only [h3, decide_False, if_false]
        rw [if_neg (show ¬(32 * t + k < nbits) by omega)]
        simp
    · rw [if_neg h2, if_neg (by omega)]

theorem list_filter_length_eq_sum (p : Nat → Bool) (n : Nat) :
    ((List.range n).filter p).length = ∑ k ∈ Finset.range n, (if p k then 1 else 0) := by
  induction n with
  | zero => rfl
  | succ n ih =>
    rw [List.range_succ, List.filter_append, List.length_append, ih, Finset.sum_range_succ]
    cases hp : p n <;> simp [hp]

theorem popc32_eq_sum (x : Nat) :
    popc32 x = ∑ k ∈ Finset.range 32, (if x.testBit k then 1 else 0) :=
  list_filter_length_eq_sum _ 32

/-- The closed form of one lane's aligned-phase null-count term: the number of
zero source bits among the (up to 32) window bits its destination word holds. -/
theorem nulls_store_word_nc_eq (vals : Nat → Nat) (hv : ∀ j, vals j < 2 ^ 32)
    (startbit nbits t : Nat) :
    nulls_store_word_nc vals startbit nbits t =
      ∑ k ∈ Finset.range (min (nbits - 32 * t) 32),
        (if srcbit vals (startbit + 32 * t + k) = false then 1 else 0) := by
  unfold nulls_store_word_nc
  by_cases h1 : 32 * t + 32 ≤ nbits
  · rw [if_pos h1, popc32_eq_sum, show min (nbits - 32 * t) 32 = 32 by omega]
    apply Finset.sum_congr rfl
    intro k hk
    have hk32 : k < 32 := Finset.mem_range.mp hk
    rw [compl32_testBit _ _ hk32, rle8_read_u32_testBit vals hv _ _ hk32]
    cases hs : srcbit vals (startbit + 32 * t + k) <;> simp [hs]
  · rw [if_neg h1]
    by_cases h2 : 32 * t < nbits
    · rw [if_pos h2, popc32_eq_sum, show min (nbits - 32 * t) 32 = nbits - 32 * t by omega]
      have e1 : ∀ k ∈ Finset.range 32,
          (if (compl32 (rle8_read_u32 vals (startbit + 32 * t) &&&
              ((1 <<< (nbits - 32 * t)) - 1)) &&& ((1 <<< (nbits - 32 * t)) - 1)).testBit k
            then 1 else 0) =
          (if k < nbits - 32 * t ∧ srcbit vals (startbit + 32 * t + k) = false
            then 1 else 0) := by
        intro k hk
        have hk32 : k < 32 := Finset.mem_range.mp hk
        rw [Nat.testBit_and, compl32_testBit _ _ hk32, Nat.testBit_and, Nat.one_shiftLeft,
          Nat.testBit_two_pow_sub_one, rle8_read_u32_testBit vals hv _ _ hk32]
        by_cases hklt : k < nbits - 32 * t
        · cases hs : srcbit vals (startbit + 32 * t + k) <;> simp [hklt, hs]
        · simp [hklt]
      rw [Finset.sum_congr rfl e1]
      rw [← Finset.sum_subset (Finset.range_subset.mpr (show nbits - 32 * t ≤ 32 by omega))
        (fun x _ hx => by rw [if_neg (fun hc => hx (Finset.mem_range.mpr hc.1))])]
      apply Finset.sum_congr rfl
      intro k hk
      have hkn := Finset.mem_range.mp hk
      simp [hkn]
    · rw [if_neg h2, show min (nbits - 32 * t) 32 = 0 by omega]
      simp

theorem nulls_store_word_nc_shift (vals : Nat → Nat) (hv : ∀ j, vals j < 2 ^ 32)
    (startbit nbits t : Nat) (_h : 32 ≤ nbits) :
    nulls_store_word_nc vals startbit nbits (t + 1) =
      nulls_store_word_nc vals (startbit + 32) (nbits - 32) t := by
  rw [nulls_store_word_nc_eq vals hv, nulls_store_word_nc_eq vals hv]
  rw [show min (nbits - 32 * (t + 1)) 32 = min (nbits - 32 - 32 * t) 32 by omega]
  apply Finset.sum_congr rfl
  intro k hk
  rw [show startbit + 32 * (t + 1) + k = startbit + 32 + 32 * t + k by ring]

/-- The aligned phase counts exactly the zero source bits of its window. -/
theorem nulls_tail_nc_eq (vals : Nat → Nat) (hv : ∀ j, vals j < 2 ^ 32) :
    ∀ (W startbit nbits : Nat), nbits ≤ 32 * W →
      nulls_tail_nc vals startbit nbits =
        ∑ j ∈ Finset.range nbits, (if srcbit vals (startbit + j) = false then 1 else 0) := by
  intro W
  induction W with
  | zero =>
    intro startbit nbits h
    have h0 : nbits = 0 := by omega
    subst h0
    rfl
  | succ W ih =>
    intro startbit nbits h
    by_cases h32 : nbits ≤ 32
    · unfold nulls_tail_nc
      by_cases h0 : nbits = 0
      · subst h0
        rfl
      · rw [show (nbits + 31) / 32 = 1 by omega, show List.range 1 = [0] from rfl]
        simp only [List.map_cons, List.map_nil, List.sum_cons, List.sum_nil, Nat.add_zero]
        rw [nulls_store_word_nc_eq vals hv, show min (nbits - 32 * 0) 32 = nbits by omega]
        apply Finset.sum_congr rfl
        intro k hk
        rw [show startbit + 32 * 0 + k = startbit + k by ring]
    · have hW : (nbits + 31) / 32 = (nbits - 32 + 31) / 32 + 1 := by omega
      unfold nulls_tail_nc
      rw [hW, List.range_succ_eq_map]
      simp only [List.map_cons, List.sum_cons, List.map_map]
      rw [List.map_congr_left (fun x _ => show (nulls_store_word_nc vals startbit nbits ∘
          Nat.succ) x = nulls_store_word_nc vals (startbit + 32) (nbits - 32) x from
        nulls_store_word_nc_shift vals hv startbit nbits x (by omega))]
      have htail := ih (startbit + 32) (nbits - 32) (by omega)
      unfold nulls_tail_nc at htail
      rw [htail, nulls_store_word_nc_eq vals hv, show min (nbits - 32 * 0) 32 = 32 by omega]
      have hhead : (∑ k ∈ Finset.range 32,
          (if srcbit vals (startbit + 32 * 0 + k) = false then 1 else 0)) =
          ∑ k ∈ Finset.Ico 0 32, (if srcbit vals (startbit + k) = false then 1 else 0) := by
        rw [Nat.Ico_zero_eq_range]
        apply Finset.sum_congr rfl
        intro k hk
        rw [show startbit + 32 * 0 + k = startbit + k by ring]
      have htail2 : (∑ j ∈ Finset.range (nbits - 32),
          (if srcbit vals (startbit + 32 + j) = false then 1 else 0)) =
          ∑ j ∈ Finset.Ico 32 nbits, (if srcbit vals (startbit + j) = false then 1 else 0) := by
        rw [Finset.sum_Ico_eq_sum_range]
        apply Finset.sum_congr rfl
        intro k hk
        rw [show startbit + (32 + k) = startbit + 32 + k by ring]
      rw [hhead, htail2, Finset.sum_Ico_consecutive _ (Nat.zero_le 32) (by omega),
        Nat.Ico_zero_eq_range]

/-- The unaligned head phase counts exactly the zero source bits of its
`n`-bit slice. -/
theorem nulls_headA_nc (vals : Nat → Nat) (hv : ∀ j, vals j < 2 ^ 32)
    (startbit bitpos n : Nat) (hbn : bitpos + n ≤ 32) :
    popc32 (compl32 ((rle8_read_u32 vals startbit <<< bitpos) &&&
        (((1 <<< n) - 1) <<< bitpos)) &&& (((1 <<< n) - 1) <<< bitpos)) =
      ∑ j ∈ Finset.range n, (if srcbit vals (startbit + j) = false then 1 else 0) := by
  rw [popc32_eq_sum]
  have e1 : ∀ k ∈ Finset.range 32,
      (if (compl32 ((rle8_read_u32 vals startbit <<< bitpos) &&&
          (((1 <<< n) - 1) <<< bitpos)) &&& (((1 <<< n) - 1) <<< bitpos)).testBit k
        then 1 else 0) =
      (if bitpos ≤ k ∧ k < bitpos + n ∧ srcbit vals (startbit + (k - bitpos)) = false
        then 1 else 0) := by
    intro k hk
    have hk32 : k < 32 := Finset.mem_range.mp hk
    rw [Nat.testBit_and, compl32_testBit _ _ hk32, Nat.testBit_and, Nat.testBit_shiftLeft,
      Nat.testBit_shiftLeft, Nat.one_shiftLeft, Nat.testBit_two_pow_sub_one]
    by_cases hklo : bitpos ≤ k
    · by_cases hkhi : k - bitpos < n
      · rw [rle8_read_u32_testBit vals hv _ _ (by omega)]
        cases hs : srcbit vals (startbit + (k - bitpos)) <;>
          simp [hklo, hkhi, hs, ge_iff_le, show k < bitpos + n by omega]
      · rw [if_neg (show ¬(bitpos ≤ k ∧ k < bitpos + n ∧
            srcbit vals (startbit + (k - bitpos)) = false) from
          fun hc => absurd hc.2.1 (by omega))]
        simp [hkhi]
    · rw [if_neg (show ¬(bitpos ≤ k ∧ k < bitpos + n ∧
          srcbit vals (startbit + (k - bitpos)) = false) from fun hc => absurd hc.1 hklo)]
      simp [hklo, ge_iff_le]
  rw [Finset.sum_congr rfl e1, ← Nat.Ico_zero_eq_range,
    ← Finset.sum_Ico_consecutive _ (Nat.zero_le bitpos) (show bitpos ≤ 32 by omega),
    ← Finset.sum_Ico_consecutive _ (show bitpos ≤ bitpos + n by omega)
      (show bitpos + n ≤ 32 by omega)]
  have hz1 : (∑ k ∈ Finset.Ico 0 bitpos,
      (if bitpos ≤ k ∧ k < bitpos + n ∧ srcbit vals (startbit + (k - bitpos)) = false
        then 1 else 0)) = 0 := by
    apply Finset.sum_eq_zero
    intro k hk
    have := Finset.mem_Ico.mp hk
    rw [if_neg (fun hc => absurd hc.1 (by omega))]
  have hz2 : (∑ k ∈ Finset.Ico (bitpos + n) 32,
      (if bitpos ≤ k ∧ k < bitpos + n ∧ srcbit vals (startbit + (k - bitpos)) = false
        then 1 else 0)) = 0 := by
    apply Finset.sum_eq_zero
    intro k hk
    have := Finset.mem_Ico.mp hk
    rw [if_neg (fun hc => absurd hc.2.1 (by omega))]
  rw [hz1, hz2, Nat.zero_add, Nat.add_zero, Finset.sum_Ico_eq_sum_range,
    show bitpos + n - bitpos = n by omega, Nat.Ico_zero_eq_range]
  apply Finset.sum_congr rfl
  intro j hj
  have hjn := Finset.mem_range.mp hj
  rw [show bitpos + j - bitpos = j by omega]
  by_cases hs : srcbit vals (startbit + j) = false
  · rw [if_pos ⟨by omega, by omega, hs⟩, if_pos hs]
  · rw [if_neg (fun hc => hs hc.2.2), if_neg hs]

/-- Every bit the window store writes: in-window destination bits receive the
matching source bit, all other bits of the global bitmap keep their previous
value. -/
theorem nulls_store_in_testBit (vals gmap : Nat → Nat) (hv : ∀ j, vals j < 2 ^ 32)
    (startbit dst_pos nbits i : Nat) :
    ((nulls_store_in vals gmap startbit dst_pos nbits).1 (i / 32)).testBit (i % 32) =
      if dst_pos ≤ i ∧ i < dst_pos + nbits then srcbit vals (startbit + (i - dst_pos))
      else (gmap (i / 32)).testBit (i % 32) := by
  have hmod : i % 32 < 32 := Nat.mod_lt _ (by norm_num)
  simp only [nulls_store_in]
  rw [and31, shr5]
  by_cases hb : dst_pos % 32 ≠ 0
  · rw [if_pos hb]
    simp only []
    by_cases h1 : i / 32 < dst_pos / 32
    · rw [if_pos h1, if_neg (show ¬(dst_pos ≤ i ∧ i < dst_pos + nbits) by omega)]
    · rw [if_neg h1]
      by_cases h2 : i / 32 = dst_pos / 32
      · rw [if_pos h2, ← h2, masked_write_testBit _ _ _ _ hmod, Nat.testBit_shiftLeft,
          Nat.testBit_shiftLeft, Nat.one_shiftLeft, Nat.testBit_two_pow_sub_one]
        by_cases hk1 : dst_pos % 32 ≤ i % 32
        · by_cases hk2 : i % 32 - dst_pos % 32 < min (32 - dst_pos % 32) nbits
          · rw [rle8_read_u32_testBit vals hv _ _ (by omega)]
            have hidx : i % 32 - dst_pos % 32 = i - dst_pos := by omega
            rw [hidx, if_pos (show dst_pos ≤ i ∧ i < dst_pos + nbits by omega)]
            simp [hk1, ge_iff_le, show i - dst_pos < min (32 - dst_pos % 32) nbits by omega]
          · rw [if_neg (show ¬(dst_pos ≤ i ∧ i < dst_pos + nbits) by omega)]
            simp [hk2]
        · rw [if_neg (show ¬(dst_pos ≤ i ∧ i < dst_pos + nbits) by omega)]
          simp [hk1, ge_iff_le]
      · rw [if_neg h2, nulls_store_word_testBit vals hv _ _ _ _ _ hmod]
        by_cases hn : 32 - dst_pos % 32 ≤ nbits
        · rw [show min (32 - dst_pos % 32) nbits = 32 - dst_pos % 32 by omega]
          by_cases hw : 32 * (i / 32 - (dst_pos / 32 + 1)) + i % 32 <
              nbits - (32 - dst_pos % 32)
          · rw [if_pos hw, if_pos (show dst_pos ≤ i ∧ i < dst_pos + nbits by omega),
              show startbit + (32 - dst_pos % 32) + 32 * (i / 32 - (dst_pos / 32 + 1)) +
                i % 32 = startbit + (i - dst_pos) by omega]
          · rw [if_neg hw, if_neg (show ¬(dst_pos ≤ i ∧ i < dst_pos + nbits) by omega)]
        · rw [show min (32 - dst_pos % 32) nbits = nbits by omega,
            if_neg (show ¬(32 * (i / 32 - (dst_pos / 32 + 1)) + i % 32 < nbits - nbits)
              by omega),
            if_neg (show ¬(dst_pos ≤ i ∧ i < dst_pos + nbits) by omega)]
  · rw [if_neg hb]
    simp only []
    push_neg at hb
    by_cases h1 : i / 32 < dst_pos / 32
    · rw [if_pos h1, if_neg (show ¬(dst_pos ≤ i ∧ i < dst_pos + nbits) by omega)]
    · rw [if_neg h1, nulls_store_word_testBit vals hv _ _ _ _ _ hmod]
      by_cases hw : 32 * (i / 32 - dst_pos / 32) + i % 32 < nbits
      · rw [if_pos hw, if_pos (show dst_pos ≤ i ∧ i < dst_pos + nbits by omega),
          show startbit + 32 * (i / 32 - dst_pos / 32) + i % 32 =
            startbit + (i - dst_pos) by omega]
      · rw [if_neg hw, if_neg (show ¬(dst_pos ≤ i ∧ i < dst_pos + nbits) by omega)]

/-- The window's null-count contribution is exactly the number of zero source
bits inside the window. -/
theorem nulls_store_in_nc (vals gmap : Nat → Nat) (hv : ∀ j, vals j < 2 ^ 32)
    (startbit dst_pos nbits : Nat) :
    (nulls_store_in vals gmap startbit dst_pos nbits).2 =
      ∑ j ∈ Finset.range nbits, (if srcbit vals (startbit + j) = false then 1 else 0) := by
  have hcomb : ∀ n : Nat, n ≤ nbits →
      ((∑ j ∈ Finset.range n, (if srcbit vals (startbit + j) = false then 1 else 0)) +
        ∑ j ∈ Finset.range (nbits - n),
          (if srcbit vals (startbit + n + j) = false then 1 else 0)) =
      ∑ j ∈ Finset.range nbits, (if srcbit vals (startbit + j) = false then 1 else 0) := by
    intro n hn
    have htl : (∑ j ∈ Finset.range (nbits - n),
        (if srcbit vals (startbit + n + j) = false then 1 else 0)) =
        ∑ j ∈ Finset.Ico n nbits, (if srcbit vals (startbit + j) = false then 1 else 0) := by
      rw [Finset.sum_Ico_eq_sum_range]
      apply Finset.sum_congr rfl
      intro k hk
      rw [show startbit + (n + k) = startbit + n + k by ring]
    rw [htl, ← Nat.Ico_zero_eq_range,
      Finset.sum_Ico_consecutive _ (Nat.zero_le n) hn, Nat.Ico_zero_eq_range]
  simp only [nulls_store_in]
  by_cases hb : dst_pos &&& 0x1f ≠ 0
  · rw [if_pos hb]
    rw [nulls_headA_nc vals hv startbit (dst_pos &&& 0x1f)
        (min (32 - (dst_pos &&& 0x1f)) nbits) (by rw [and31]; omega),
      nulls_tail_nc_eq vals hv nbits (startbit + min (32 - (dst_pos &&& 0x1f)) nbits)
        (nbits - min (32 - (dst_pos &&& 0x1f)) nbits) (by omega)]
    exact hcomb (min (32 - (dst_pos &&& 0x1f)) nbits) (by omega)
  · rw [if_neg hb]
    exact nulls_tail_nc_eq vals hv nbits startbit nbits (by omega)

theorem nulls_params (first_row row_in : Nat) :
    nulls_dst_pos first_row row_in = row_in - first_row ∧
      nulls_startbit first_row row_in = first_row - row_in := by
  unfold nulls_dst_pos nulls_startbit
  constructor <;> omega

/-- Claim C3: for a chunk with a PRESENT stream, each global validity-bitmap
bit at in-window position `i` receives the decoded source validity bit whose
absolute row is `first_row + i` (the source bit at index
`startbit + (i - dst_pos)`, whose row `row_in + index` the second conjunct
identifies); bitmap bits outside the window keep their previous contents, and
the window's null count is exactly the number of zero source bits inside the
window — bits outside it are neither written nor counted. -/
theorem C3_null_bitmap (vals gmap : Nat → Nat) (hv : ∀ j, vals j < 2 ^ 32)
    (first_row max_num_rows row_in nrows : Nat)
    (h1 : first_row < row_in + nrows) (h2 : row_in < first_row + max_num_rows) (i : Nat) :
    ((nulls_dst_pos first_row row_in ≤ i ∧
        i < nulls_dst_pos first_row row_in +
          nulls_nbits first_row max_num_rows row_in nrows) →
      (((nulls_store vals gmap first_row max_num_rows row_in nrows).1 (i / 32)).testBit
          (i % 32) =
          srcbit vals (nulls_startbit first_row row_in +
            (i - nulls_dst_pos first_row row_in)) ∧
        row_in + (nulls_startbit first_row row_in + (i - nulls_dst_pos first_row row_in)) =
          first_row + i)) ∧
      (¬(nulls_dst_pos first_row row_in ≤ i ∧
          i < nulls_dst_pos first_row row_in +
            nulls_nbits first_row max_num_rows row_in nrows) →
        ((nulls_store vals gmap first_row max_num_rows row_in nrows).1 (i / 32)).testBit
          (i % 32) = (gmap (i / 32)).testBit (i % 32)) ∧
      (nulls_store vals gmap first_row max_num_rows row_in nrows).2 =
        ∑ j ∈ Finset.range (nulls_nbits first_row max_num_rows row_in nrows),
          (if srcbit vals (nulls_startbit first_row row_in + j) = false then 1 else 0) := by
  have hstore : nulls_store vals gmap first_row max_num_rows row_in nrows =
      nulls_store_in vals gmap (nulls_startbit first_row row_in)
        (nulls_dst_pos first_row row_in) (nulls_nbits first_row max_num_rows row_in nrows) := by
    unfold nulls_store
    rw [if_pos ⟨h1, h2⟩]
  obtain ⟨hdp, hsb⟩ := nulls_params first_row row_in
  refine ⟨?_, ?_, ?_⟩
  · intro hin
    refine ⟨?_, by omega⟩
    rw [hstore, nulls_store_in_testBit vals gmap hv, if_pos hin]
  · intro hout
    rw [hstore, nulls_store_in_testBit vals gmap hv, if_neg hout]
  · rw [hstore, nulls_store_in_nc vals gmap hv]

/-- Claim C3 witness: a 37-row validity stream straddling two source words
(bits 0-5 and 32-36 set) with `first_row = 5`: in-window bits 0, 26, 27 of the
written bitmap equal source bits 5, 31, 32; bit 32 lies outside the 32-bit
window and keeps the previous bitmap contents; the null count is the 26 zero
source bits inside the window. -/
theorem C3_null_bitmap_witness :
    ((nulls_store (fun j => [63, 31].getD j 0) (fun _ => 0xffffffff) 5 100 0 37).1 0).testBit
        0 = true ∧
      ((nulls_store (fun j => [63, 31].getD j 0) (fun _ => 0xffffffff) 5 100 0 37).1 0).testBit
        26 = false ∧
      ((nulls_store (fun j => [63, 31].getD j 0) (fun _ => 0xffffffff) 5 100 0 37).1 0).testBit
        27 = true ∧
      ((nulls_store (fun j => [63, 31].getD j 0) (fun _ => 0xffffffff) 5 100 0 37).1 1).testBit
        0 = true ∧
      (nulls_store (fun j => [63, 31].getD j 0) (fun _ => 0xffffffff) 5 100 0 37).2 = 26 := by
  have hv : ∀ j, (fun j => ([63, 31] : List Nat).getD j 0) j < 2 ^ 32 := by
    intro j
    rcases j with _ | _ | j <;> norm_num [List.getD]
  have h := fun i => C3_null_bitmap (fun j => [63, 31].getD j 0) (fun _ => 0xffffffff) hv
    5 100 0 37 (by norm_num) (by norm_num) i
  refine ⟨?_, ?_, ?_, ?_, ?_⟩
  · exact (((h 0).1 (by decide)).1).trans (by decide)
  · exact (((h 26).1 (by decide)).1).trans (by decide)
  · exact (((h 27).1 (by decide)).1).trans (by decide)
  · exact ((h 32).2.1 (by decide)).trans (by decide)
  · exact ((h 0).2.2).trans (by decide)

end OrcGpu
